import Mathlib

/-!
# ReactPhysics3D: the matrix utility and the constraint registry of the dynamics world

A shallow embedding of `sources/reactphysics3d/mathematics/Matrix.cpp` and of the inline
functions of `src/engine/DynamicsWorld.h`, followed by the properties proved about them.

Conventions of the embedding.

* C++ `int` is `Int`.  Every index the code computes lies between `-1` and the sum of two
  dimensions, so no arithmetic of the code leaves the range of `int` for a matrix that fits in
  memory, and wrap-around is not modelled.
* `double` is a type `α` with the operations the code uses and decidable equality.  The
  functions assume no law of arithmetic; a theorem that holds in exact arithmetic only says
  so by taking `α` as a commutative ring or a field.  `Double` is the arithmetic of IEEE 754
  binary64.
* A function that can throw returns `Result β`.  A dynamic exception specification
  `throw(E)` is the wrapper `throwSpec E`.
* The storage `double** array` is a function from row and column index to the cell content.
  Storage returned by `new` holds arbitrary values: the functions that allocate take the
  content of fresh storage as their first argument `uninit`.
* Matrices are passed and returned by value; the copy constructor is the identity on values,
  and the destructor and `display` (output only) are not embedded.
-/

/-- The mathematical `n × n` matrices over `α`, the reference for determinant and inverse. -/
abbrev SquareMatrix (n : Nat) (α : Type) := Matrix (Fin n) (Fin n) α

namespace reactphysics3d

/-- The ways a call of the matrix utility ends without a value. -/
inductive Failure
  /-- A `std::invalid_argument` was thrown. -/
  | invalid_argument
  /-- A `MatrixException` was thrown. -/
  | MatrixException
  /-- An exception left a function whose `throw(...)` list does not name it:
  `std::unexpected()` runs and terminates the program. -/
  | terminate
  /-- The recursion bound of the embedding was reached (never the case, see
  `Matrix.getDeterminant_total`). -/
  | fuel
  deriving DecidableEq, Repr

/-- The outcome of a call that may throw. -/
abbrev Result (β : Type) := Except Failure β

deriving instance DecidableEq for Except

/-- A function declared `throw(allowed)`: an exception of another type that leaves it ends
the program. -/
def throwSpec {β : Type} (allowed : Failure) : Result β → Result β
  | .ok v => .ok v
  | .error .invalid_argument =>
      if allowed = .invalid_argument then .error .invalid_argument else .error .terminate
  | .error .MatrixException =>
      if allowed = .MatrixException then .error .MatrixException else .error .terminate
  | .error .terminate => .error .terminate
  | .error .fuel => .error .fuel

/-- The first `k` iterations of `for (int i = 0; i < n; ++i) body`, run on the state `s`. -/
def forLoop {σ : Type} (body : Int → σ → Result σ) : Nat → σ → Result σ
  | 0, s => .ok s
  | k + 1, s => forLoop body k s >>= body (k : Int)

/-- The class `Matrix`: its dimensions and its storage. -/
structure Matrix (α : Type) where
  /-- Number of rows. -/
  nbRow : Int
  /-- Number of columns. -/
  nbColumn : Int
  /-- Cell content `array[i][j]`. -/
  array : Int → Int → α

section MatrixCode

variable {α : Type}

/-- Modelled from the spec: `Matrix.h`, which defines the inline accessor `getValue`, is not
among the sources.  It is taken as the read of `array[i][j]` that fails fast with
`std::invalid_argument` outside the matrix, the test `getCofactor` makes on its own indices;
every call in `Matrix.cpp` has its indices inside the matrix, where this is the plain
read. -/
def Matrix.getValue (M : Matrix α) (i j : Int) : Result α :=
  if 0 ≤ i ∧ i < M.nbRow ∧ 0 ≤ j ∧ j < M.nbColumn then .ok (M.array i j)
  else .error .invalid_argument

/-- The direct write `array[i][j] = value`. -/
def Matrix.write (M : Matrix α) (i j : Int) (value : α) : Matrix α :=
  { M with array := fun r s => if r = i ∧ s = j then value else M.array r s }

/-- Modelled from the spec: `Matrix.h`, which defines the inline accessor `setValue`, is not
among the sources.  It is taken as the write of `array[i][j]` that fails fast with
`std::invalid_argument` outside the matrix, the test `getCofactor` makes on its own indices;
every call in `Matrix.cpp` has its indices inside the matrix, where this is the plain
write. -/
def Matrix.setValue (M : Matrix α) (i j : Int) (value : α) : Result (Matrix α) :=
  if 0 ≤ i ∧ i < M.nbRow ∧ 0 ≤ j ∧ j < M.nbColumn then .ok (M.write i j value)
  else .error .invalid_argument

/-- The two matrices have the same number of rows and the same number of columns: the test
`nbRow == matrix2.nbRow && nbColumn == matrix2.nbColumn` of the binary operators. -/
def Matrix.sameSize (A matrix2 : Matrix α) : Prop :=
  A.nbRow = matrix2.nbRow ∧ A.nbColumn = matrix2.nbColumn

instance (A matrix2 : Matrix α) : Decidable (A.sameSize matrix2) := by
  unfold Matrix.sameSize
  infer_instance

variable [Zero α] [One α] [Add α] [Sub α] [Mul α] [Neg α] [DecidableEq α]

/-- `Matrix::Matrix(int nbRow, int nbColumn) throw(std::invalid_argument)`. -/
def Matrix.ctor (uninit : Int → Int → α) (nbRow nbColumn : Int) : Result (Matrix α) :=
  throwSpec .invalid_argument <|
    if nbRow > 0 ∧ nbColumn > 0 then
      forLoop (fun i m => forLoop (fun j m => m.setValue i j 0) nbColumn.toNat m) nbRow.toNat
        { nbRow := nbRow, nbColumn := nbColumn, array := uninit }
    else .error .invalid_argument

/-- `Matrix::getCofactor(int i, int j) const throw(std::invalid_argument)`.  The loop state is
the cofactor matrix under construction with the counters `u` and `v`. -/
def Matrix.getCofactor (uninit : Int → Int → α) (M : Matrix α) (i j : Int) :
    Result (Matrix α) :=
  throwSpec .invalid_argument <|
    if 0 ≤ i ∧ i < M.nbRow ∧ 0 ≤ j ∧ j < M.nbColumn then do
      let cofactor ← Matrix.ctor uninit (M.nbRow - 1) (M.nbColumn - 1)
      let st ← forLoop (fun s st =>
          forLoop (fun r (st : Matrix α × Int × Int) =>
            if r ≠ i ∧ s ≠ j then do
              let x ← M.getValue r s
              let cofactor ← st.1.setValue st.2.1 st.2.2 x
              let u := st.2.1 + 1
              if u = cofactor.nbRow then pure (cofactor, 0, st.2.2 + 1)
              else pure (cofactor, u, st.2.2)
            else pure st) M.nbRow.toNat st) M.nbColumn.toNat (cofactor, 0, 0)
      pure st.1
    else .error .invalid_argument

/-- `Matrix::getTranspose() const`. -/
def Matrix.getTranspose (uninit : Int → Int → α) (M : Matrix α) : Result (Matrix α) := do
  let transposedMatrix ← Matrix.ctor uninit M.nbColumn M.nbRow
  forLoop (fun i t => forLoop (fun j t => t.setValue j i (M.array i j)) M.nbColumn.toNat t)
    M.nbRow.toNat transposedMatrix

/-- `Matrix::getDeterminant() const throw(MatrixException)` with a bound on the depth of the
recursion.  The loop state is the pair of `determinant` and `k`. -/
def Matrix.getDeterminantFuel (uninit : Int → Int → α) : Nat → Matrix α → Result α
  | 0, _ => .error .fuel
  | fuel + 1, M =>
    throwSpec .MatrixException <|
      if M.nbRow = M.nbColumn then
        if M.nbRow = 1 then M.getValue 0 0
        else if M.nbRow = 2 then do
          let a ← M.getValue 0 0
          let d ← M.getValue 1 1
          let c ← M.getValue 1 0
          let b ← M.getValue 0 1
          pure (a * d - c * b)
        else do
          let st ← forLoop (fun j (st : α × α) => do
              let x ← M.getValue 0 j
              let cofactor ← M.getCofactor uninit 0 j
              let d ← Matrix.getDeterminantFuel uninit fuel cofactor
              let determinant := st.1 + st.2 * x * d
              if st.2 = 1 then pure (determinant, -1) else pure (determinant, 1))
            M.nbColumn.toNat (0, 1)
          pure st.1
      else .error .MatrixException

/-- `Matrix::getDeterminant() const throw(MatrixException)`: each recursive call is on a
matrix with one row less, so the number of rows bounds the depth. -/
def Matrix.getDeterminant (uninit : Int → Int → α) (M : Matrix α) : Result α :=
  Matrix.getDeterminantFuel uninit (M.nbRow.toNat + 1) M

/-- `Matrix::getTrace() const`: the loops add every cell to `sum`. -/
def Matrix.getTrace (M : Matrix α) : Result α :=
  forLoop (fun i sum => forLoop (fun j sum => pure (sum + M.array i j)) M.nbColumn.toNat sum)
    M.nbRow.toNat (0 : α)

/-- `Matrix::identityMatrix(int dimension) throw(std::invalid_argument)`. -/
def Matrix.identityMatrix (uninit : Int → Int → α) (dimension : Int) : Result (Matrix α) :=
  throwSpec .invalid_argument <|
    if dimension > 0 then do
      let identityMatrix ← Matrix.ctor uninit dimension dimension
      forLoop (fun i t => forLoop (fun j t =>
          if i = j then t.setValue i j 1 else t.setValue i j 0) dimension.toNat t)
        dimension.toNat identityMatrix
    else .error .invalid_argument

/-- `Matrix::operator+(const Matrix& matrix2) const throw(MatrixException)`. -/
def Matrix.operatorAdd (uninit : Int → Int → α) (A matrix2 : Matrix α) : Result (Matrix α) :=
  throwSpec .MatrixException <|
    if A.sameSize matrix2 then do
      let sumMatrix ← Matrix.ctor uninit A.nbRow A.nbColumn
      forLoop (fun i t => forLoop (fun j t => do
          let x ← A.getValue i j
          let y ← matrix2.getValue i j
          t.setValue i j (x + y)) A.nbColumn.toNat t) A.nbRow.toNat sumMatrix
    else .error .MatrixException

/-- `Matrix::operator-(const Matrix& matrix2) const throw(MatrixException)`. -/
def Matrix.operatorSub (uninit : Int → Int → α) (A matrix2 : Matrix α) : Result (Matrix α) :=
  throwSpec .MatrixException <|
    if A.sameSize matrix2 then do
      let sumMatrix ← Matrix.ctor uninit A.nbRow A.nbColumn
      forLoop (fun i t => forLoop (fun j t => do
          let x ← A.getValue i j
          let y ← matrix2.getValue i j
          t.setValue i j (x - y)) A.nbColumn.toNat t) A.nbRow.toNat sumMatrix
    else .error .MatrixException

/-- `Matrix::operator*(double nb) const`. -/
def Matrix.operatorMulScalar (uninit : Int → Int → α) (A : Matrix α) (nb : α) :
    Result (Matrix α) := do
  let result ← Matrix.ctor uninit A.nbRow A.nbColumn
  forLoop (fun i t => forLoop (fun j t => do
      let x ← A.getValue i j
      t.setValue i j (x * nb)) A.nbColumn.toNat t) A.nbRow.toNat result

/-- `Matrix::operator*(const Matrix& matrix2) const throw(MatrixException)`.  The cells are
read and written directly, without the accessors. -/
def Matrix.operatorMul (uninit : Int → Int → α) (A matrix2 : Matrix α) : Result (Matrix α) :=
  throwSpec .MatrixException <|
    if A.nbColumn = matrix2.nbRow then do
      let result ← Matrix.ctor uninit A.nbRow matrix2.nbColumn
      forLoop (fun i res => forLoop (fun j res => do
          let sum ← forLoop (fun k sum => pure (sum + A.array i k * matrix2.array k j))
            A.nbColumn.toNat (0 : α)
          pure (res.write i j sum)) matrix2.nbColumn.toNat res) A.nbRow.toNat result
    else .error .MatrixException

/-- The right operand `const Matrix& matrix2` of an assignment: a reference to the object
assigned to, or to another object. -/
inductive Operand (α : Type) where
  /-- The operand is the object assigned to: `this == &matrix2`. -/
  | self
  /-- The operand is another object. -/
  | other (matrix2 : Matrix α)

/-- The object an operand refers to. -/
def Operand.deref (A : Matrix α) : Operand α → Matrix α
  | .self => A
  | .other matrix2 => matrix2

/-- `Matrix::operator=(const Matrix& matrix2) throw(MatrixException)`: the value of `*this`
after the call. -/
def Matrix.operatorAssign (A : Matrix α) (matrix2 : Operand α) : Result (Matrix α) :=
  throwSpec .MatrixException <|
    if A.sameSize (matrix2.deref A) then
      match matrix2 with
      | .self => pure A
      | .other B =>
        forLoop (fun i t => forLoop (fun j t => do
            let x ← B.getValue i j
            t.setValue i j x) A.nbColumn.toNat t) A.nbRow.toNat A
    else .error .MatrixException

/-- The first `k` iterations of `for (int i = 0; i < n; ++i) body` on an object that is
written in place: the object after them, and the exception that ended them, if any.  An
exception leaves the object as the writes before it left it. -/
def forLoopState {σ : Type} (body : Int → σ → σ × Option Failure) :
    Nat → σ → σ × Option Failure
  | 0, s => (s, none)
  | k + 1, s =>
    match forLoopState body k s with
    | (s', none) => body (k : Int) s'
    | (s', some e) => (s', some e)

/-- `throw(allowed)` on code that writes an object in place. -/
def throwSpecState {σ : Type} (allowed : Failure) : σ × Option Failure → σ × Option Failure
  | (s, none) => (s, none)
  | (s, some e) =>
    match (throwSpec allowed (.error e) : Result Unit) with
    | .error e' => (s, some e')
    | .ok _ => (s, none)

/-- `Matrix::operator=(const Matrix& matrix2) throw(MatrixException)` as its effect on the
object `*this`: the object after the call, returned from or left by an exception, and that
exception, if any.  `operatorAssign` is its outcome when the call returns. -/
def Matrix.operatorAssignState (A : Matrix α) (matrix2 : Operand α) :
    Matrix α × Option Failure :=
  throwSpecState .MatrixException <|
    if A.sameSize (matrix2.deref A) then
      match matrix2 with
      | .self => (A, none)
      | .other B =>
        forLoopState (fun i t => forLoopState (fun j t =>
            match B.getValue i j with
            | .error e => (t, some e)
            | .ok x =>
              match t.setValue i j x with
              | .error e => (t, some e)
              | .ok t' => (t', none)) A.nbColumn.toNat t) A.nbRow.toNat A
    else (A, some .MatrixException)

/-- `Matrix::operator==(const Matrix& matrix2) const throw(MatrixException)`.  The loop
state is the value already returned from inside the loops, if any. -/
def Matrix.operatorEq (A matrix2 : Matrix α) : Result Bool :=
  throwSpec .MatrixException <|
    if A.sameSize matrix2 then do
      let ret ← forLoop (fun i ret => forLoop (fun j (ret : Option Bool) =>
          match ret with
          | some b => pure (some b)
          | none => if A.array i j ≠ matrix2.array i j then pure (some false) else pure none)
        A.nbColumn.toNat ret) A.nbRow.toNat none
      match ret with
      | some b => pure b
      | none => pure true
    else .error .MatrixException

end MatrixCode

section InverseCode

variable {α : Type} [Zero α] [One α] [Add α] [Sub α] [Mul α] [Neg α] [Div α] [DecidableEq α]

/-- `Matrix::getInverse() const throw(MatrixException)`.  The variable `k` is assigned in
every iteration before its use and is local to the iteration here. -/
def Matrix.getInverse (uninit : Int → Int → α) (M : Matrix α) : Result (Matrix α) :=
  throwSpec .MatrixException <|
    if M.nbRow = M.nbColumn then do
      let determinant ← M.getDeterminant uninit
      if determinant ≠ 0 then do
        let tempMatrix ← Matrix.ctor uninit M.nbRow M.nbColumn
        let tempMatrix ← forLoop (fun i t => forLoop (fun j t => do
            let k : α := if (i + j) % 2 = 0 then 1 else -1
            let cofactor ← M.getCofactor uninit i j
            let d ← cofactor.getDeterminant uninit
            t.setValue i j (k * d)) M.nbColumn.toNat t) M.nbRow.toNat tempMatrix
        let transposed ← tempMatrix.getTranspose uninit
        transposed.operatorMulScalar uninit (1 / determinant)
      else .error .MatrixException
    else .error .MatrixException

end InverseCode

/-! ## The arithmetic of `double`

The functions above take the type of the entries with its operations and assume no law of
arithmetic.  `Double` is the arithmetic the code runs with: IEEE 754 binary64 with rounding
to nearest, ties to even.  The two zeros are identified (they compare equal, and the code
divides only by a determinant that is not zero), and NaN is a single value; equality of
values is the comparison `==` of the code except between NaN and NaN. -/

/-- A value of the type `double`. -/
inductive Double where
  /-- A finite value. -/
  | finite (value : ℚ)
  /-- An infinity, with its sign. -/
  | inf (negative : Bool)
  /-- Not a number. -/
  | nan
  deriving DecidableEq

/-- The integer nearest to `q`, the even one when two integers are equally near. -/
def roundHalfEven (q : ℚ) : ℤ :=
  if q - ⌊q⌋ < 1 / 2 then ⌊q⌋
  else if 1 / 2 < q - ⌊q⌋ then ⌊q⌋ + 1
  else if ⌊q⌋ % 2 = 0 then ⌊q⌋
  else ⌊q⌋ + 1

/-- The rounding of an exact result `q` to binary64.  With `2 ^ e` the unit in the last of
the 53 significant bits of `q` (that of the subnormal numbers below `2 ^ (-1022)`), `q` is
rounded to the nearest multiple of `2 ^ e`; a result of magnitude `2 ^ 1024` or more
overflows to the infinity of its sign. -/
def Double.round (q : ℚ) : Double :=
  if q = 0 then .finite 0
  else
    let e : ℤ := max (Int.log 2 |q|) (-1022) - 52
    let r : ℚ := roundHalfEven (q / 2 ^ e) * 2 ^ e
    if 2 ^ 1024 ≤ |r| then .inf (decide (q < 0)) else .finite r

/-- The negation `-x`. -/
def Double.neg : Double → Double
  | .finite x => .finite (-x)
  | .inf s => .inf (!s)
  | .nan => .nan

/-- The sum `x + y`: the exact sum rounded; infinities of opposite signs give NaN. -/
def Double.add : Double → Double → Double
  | .finite x, .finite y => Double.round (x + y)
  | .finite _, .inf t => .inf t
  | .inf s, .finite _ => .inf s
  | .inf s, .inf t => if s = t then .inf s else .nan
  | .nan, _ => .nan
  | _, .nan => .nan

/-- The difference `x - y`, the sum of `x` and `-y`. -/
def Double.sub (x y : Double) : Double := Double.add x (Double.neg y)

/-- The product `x * y`: the exact product rounded; zero times an infinity gives NaN. -/
def Double.mul : Double → Double → Double
  | .finite x, .finite y => Double.round (x * y)
  | .finite x, .inf t => if x = 0 then .nan else .inf (xor (decide (x < 0)) t)
  | .inf s, .finite y => if y = 0 then .nan else .inf (xor s (decide (y < 0)))
  | .inf s, .inf t => .inf (xor s t)
  | .nan, _ => .nan
  | _, .nan => .nan

/-- The quotient `x / y`: the exact quotient rounded; zero by zero and infinity by infinity
give NaN, and a zero divisor is taken as the positive zero. -/
def Double.div : Double → Double → Double
  | .finite x, .finite y =>
    if y = 0 then (if x = 0 then .nan else .inf (decide (x < 0))) else Double.round (x / y)
  | .finite _, .inf _ => .finite 0
  | .inf s, .finite y => .inf (xor s (decide (y < 0)))
  | .inf _, .inf _ => .nan
  | .nan, _ => .nan
  | _, .nan => .nan

instance : Zero Double := ⟨.finite 0⟩

instance : One Double := ⟨.finite 1⟩

instance : Neg Double := ⟨Double.neg⟩

instance : Add Double := ⟨Double.add⟩

instance : Sub Double := ⟨Double.sub⟩

instance : Mul Double := ⟨Double.mul⟩

instance : Div Double := ⟨Double.div⟩

/-- The exact values of the 2 x 2 matrix with every entry `2 ^ 600`. -/
def Matrix.allBigExact : Matrix ℚ := ⟨2, 2, fun _ _ => 2 ^ 600⟩

/-- The 2 x 2 matrix of `double` with every entry `2 ^ 600`. -/
def Matrix.allBig : Matrix Double := ⟨2, 2, fun i j => .finite (Matrix.allBigExact.array i j)⟩

/-- The 2 x 2 matrix of `double` with every entry 1. -/
def Matrix.allOnes : Matrix Double := ⟨2, 2, fun _ _ => 1⟩



/-! ## The dynamics world (`src/engine/DynamicsWorld.h`) -/

/-- A pointer to an object (`Constraint*`, `RigidBody*`): its address, 0 the null pointer. -/
abbrev Ptr := Nat

/-- The class `Vector3`, declared outside the sources given: three components, which the
functions embedded here copy and never compute with. -/
structure Vector3 where
  /-- First component. -/
  x : Int
  /-- Second component. -/
  y : Int
  /-- Third component. -/
  z : Int
  deriving DecidableEq, Repr

/-- The part of the free store the world acts on: the constraints deleted so far, the most
recent first. -/
structure Heap where
  /-- Addresses of the objects `delete` was applied to. -/
  freed : List Ptr
  deriving DecidableEq, Repr

/-- The data members of `DynamicsWorld` that the inline functions of the header read or
write.  The timer, the constraint solver and the memory pools have their classes declared
elsewhere and are left out. -/
structure DynamicsWorld where
  /-- True if the deactivation (sleeping) of inactive bodies is enabled. -/
  isDeactivationActive : Bool
  /-- All the rigid bodies of the physics world, `std::set<RigidBody*>`, in iteration
  order. -/
  rigidBodies : List Ptr
  /-- List that contains all the current constraints, `std::vector<Constraint*>`. -/
  constraints : List Ptr
  /-- Gravity vector of the world. -/
  gravity : Vector3
  /-- True if the gravity force is on. -/
  isGravityOn : Bool
  deriving DecidableEq, Repr

/-- How a call of a function of the world ends. -/
inductive Outcome (σ : Type) where
  /-- The call returns, leaving the state `s`. -/
  | done (s : σ)
  /-- An `assert` fails: a diagnostic is written and the program aborts. -/
  | assertionFailed
  /-- The call has undefined behaviour: the language gives it no meaning. -/
  | undefined
  deriving DecidableEq, Repr

/-- `std::find(v.begin(), v.end(), value)` as a position: that of the first element equal
to `value`, and `v.size()`, the position of `v.end()`, when there is none. -/
def find (v : List Ptr) (value : Ptr) : Nat := v.indexOf value

/-- `delete p`: nothing for the null pointer, undefined (`none`) for an object already
deleted, else the object is freed. -/
def Heap.delete (heap : Heap) (p : Ptr) : Option Heap :=
  if p = 0 then some heap
  else if p ∈ heap.freed then none
  else some { freed := p :: heap.freed }

/-- `DynamicsWorld::removeConstraint(Constraint* constraint)`.  `NDEBUG` tells whether the
`assert`s are compiled out.  Reading `*it` is undefined when `it` is `constraints.end()`;
the second `assert`, or without it the `delete`, reads it. -/
def DynamicsWorld.removeConstraint (NDEBUG : Bool) (heap : Heap) (w : DynamicsWorld)
    (constraint : Ptr) : Outcome (Heap × DynamicsWorld) :=
  if ¬NDEBUG ∧ constraint = 0 then .assertionFailed
  else
    let it := find w.constraints constraint
    match w.constraints[it]? with
    | none => .undefined
    | some p =>
      if ¬NDEBUG ∧ p ≠ constraint then .assertionFailed
      else
        match heap.delete p with
        | none => .undefined
        | some heap' => .done (heap', { w with constraints := w.constraints.eraseIdx it })

/-- `DynamicsWorld::addConstraint(Constraint* constraint)`. -/
def DynamicsWorld.addConstraint (NDEBUG : Bool) (w : DynamicsWorld) (constraint : Ptr) :
    Outcome DynamicsWorld :=
  if ¬NDEBUG ∧ constraint = 0 then .assertionFailed
  else .done { w with constraints := w.constraints ++ [constraint] }

/-- `DynamicsWorld::getGravity() const`. -/
def DynamicsWorld.getGravity (w : DynamicsWorld) : Vector3 := w.gravity

/-- `DynamicsWorld::getIsGravityOn() const`. -/
def DynamicsWorld.getIsGravityOn (w : DynamicsWorld) : Bool := w.isGravityOn

/-- `DynamicsWorld::setIsGratityOn(bool isGravityOn)`. -/
def DynamicsWorld.setIsGratityOn (w : DynamicsWorld) (isGravityOn : Bool) : DynamicsWorld :=
  { w with isGravityOn := isGravityOn }

/-- `DynamicsWorld::getConstraintsBeginIterator()`: the position of `constraints.begin()`. -/
def DynamicsWorld.getConstraintsBeginIterator (_w : DynamicsWorld) : Nat := 0

/-- `DynamicsWorld::getConstraintsEndIterator()`: the position of `constraints.end()`. -/
def DynamicsWorld.getConstraintsEndIterator (w : DynamicsWorld) : Nat := w.constraints.length

/-- `DynamicsWorld::getRigidBodiesBeginIterator()`: the position of `rigidBodies.begin()`. -/
def DynamicsWorld.getRigidBodiesBeginIterator (_w : DynamicsWorld) : Nat := 0

/-- `DynamicsWorld::getRigidBodiesEndIterator()`: the position of `rigidBodies.end()`. -/
def DynamicsWorld.getRigidBodiesEndIterator (w : DynamicsWorld) : Nat := w.rigidBodies.length

/-- The elements `*it` that `for (it = first; it != last; it++)` visits in a container, in
the order of the visit. -/
def traverse (v : List Ptr) (first last : Nat) : List Ptr :=
  (List.range (last - first)).filterMap fun k => v[first + k]?

/-- The class `RigidBody`, declared outside the sources given, with the members the data
model of the spec names for a body. -/
structure RigidBody where
  /-- Position of the body. -/
  position : Vector3
  /-- Linear velocity. -/
  linearVelocity : Vector3
  /-- Angular velocity. -/
  angularVelocity : Vector3
  /-- Mass. -/
  mass : Int
  /-- The "moved this step" flag. -/
  hasMoved : Bool
  /-- The "sleeping" flag. -/
  isSleeping : Bool
  deriving DecidableEq, Repr

/-- Modelled from the spec: `setHasMoved` is defined with the body classes, outside the
sources given; the spec names it the setter of the "moved" flag of a body. -/
def RigidBody.setHasMoved (body : RigidBody) (hasMoved : Bool) : RigidBody :=
  { body with hasMoved := hasMoved }

/-- The rigid-body objects in memory, by address. -/
abbrev BodyStore := Ptr → RigidBody

/-- The write `(*it)->setHasMoved(hasMoved)` to the body at the address `it`. -/
def BodyStore.setHasMoved (bodies : BodyStore) (it : Ptr) (hasMoved : Bool) : BodyStore :=
  fun p => if p = it then (bodies it).setHasMoved hasMoved else bodies p

/-- `DynamicsWorld::resetBodiesMovementVariable()`: the bodies in memory and the world after
the call. -/
def DynamicsWorld.resetBodiesMovementVariable (bodies : BodyStore) (w : DynamicsWorld) :
    BodyStore × DynamicsWorld :=
  ((traverse w.rigidBodies w.getRigidBodiesBeginIterator w.getRigidBodiesEndIterator).foldl
    (fun bodies it => bodies.setHasMoved it false) bodies, w)

/-! ## Auxiliary definitions of the proofs

Closed forms of the matrices the loops build, the loop bodies under a name, and the
mathematical matrix of a `Matrix`. -/

section Auxiliary

variable {α : Type}

/-- The matrix `X` with the cells of the rows below `rows` and the columns below `cols`
replaced by the values of `f`. -/
def Matrix.filled (X : Matrix α) (rows cols : Int) (f : Int → Int → α) : Matrix α :=
  { X with array := fun r s =>
      if 0 ≤ r ∧ r < rows ∧ 0 ≤ s ∧ s < cols then f r s else X.array r s }

/-- The matrix `M` without its row `i` and its column `j`, in fresh storage. -/
def Matrix.minor (uninit : Int → Int → α) (M : Matrix α) (i j : Int) : Matrix α :=
  (Matrix.mk (M.nbRow - 1) (M.nbColumn - 1) uninit).filled (M.nbRow - 1) (M.nbColumn - 1)
    (fun u v => M.array (if u < i then u else u + 1) (if v < j then v else v + 1))

/-- The body of the loops of `getCofactor` at the element `(r, s)`. -/
def Matrix.cofactorStep (M : Matrix α) (i j s r : Int) (st : Matrix α × Int × Int) :
    Result (Matrix α × Int × Int) :=
  if r ≠ i ∧ s ≠ j then do
    let x ← M.getValue r s
    let cofactor ← st.1.setValue st.2.1 st.2.2 x
    let u := st.2.1 + 1
    if u = cofactor.nbRow then pure (cofactor, 0, st.2.2 + 1)
    else pure (cofactor, u, st.2.2)
  else pure st

/-- The number of the rows below `k` other than row `i`. -/
def rowsBelow (i k : Int) : Int := if k ≤ i then k else k - 1

/-- The cofactor under construction `C` after `cnt` elements of column `s` of `M` were
copied to its column `v`. -/
def Matrix.withColumn (C M : Matrix α) (i s v cnt : Int) : Matrix α :=
  { C with array := fun a b =>
      if b = v ∧ 0 ≤ a ∧ a < cnt then M.array (if a < i then a else a + 1) s
      else C.array a b }

/-- The mathematical matrix of the first `n` rows and columns of `M`. -/
def Matrix.toSquare (M : Matrix α) (n : Nat) : SquareMatrix n α :=
  Matrix.of fun a b => M.array ((a : Nat) : Int) ((b : Nat) : Int)

/-- The body of the loops of `operator==` at the cell `(i, j)`. -/
def Matrix.eqStep [DecidableEq α] (A B : Matrix α) (i j : Int) (ret : Option Bool) : Result (Option Bool) :=
  match ret with
  | some b => pure (some b)
  | none => if A.array i j ≠ B.array i j then pure (some false) else pure none

/-- The body of the loop of `getDeterminant` at the column `j`. -/
def Matrix.detStep [Zero α] [One α] [Add α] [Sub α] [Mul α] [Neg α] [DecidableEq α]
    (uninit : Int → Int → α) (fuel : Nat) (M : Matrix α) (j : Int)
    (st : α × α) : Result (α × α) := do
  let x ← M.getValue 0 j
  let cofactor ← M.getCofactor uninit 0 j
  let d ← Matrix.getDeterminantFuel uninit fuel cofactor
  let determinant := st.1 + st.2 * x * d
  if st.2 = 1 then pure (determinant, -1) else pure (determinant, 1)

/-- The signed determinant of the matrix without row `i` and column `j`, as `getInverse`
stores it in `tempMatrix`. -/
def Matrix.signedMinor [CommRing α] (uninit : Int → Int → α) (M : Matrix α) (n : Nat) (i j : Int) : α :=
  (if (i + j) % 2 = 0 then 1 else -1) * Matrix.det ((M.minor uninit i j).toSquare n)

end Auxiliary

end reactphysics3d

namespace reactphysics3d

/-! ## Loops and the exception wrapper -/

section LoopLemmas

variable {α : Type}

@[simp] theorem throwSpec_ok {β : Type} (allowed : Failure) (v : β) :
    throwSpec allowed (.ok v) = .ok v := rfl

@[simp] theorem throwSpec_error_self {β : Type} (allowed : Failure) :
    throwSpec allowed (.error allowed : Result β) = .error allowed := by
  cases allowed <;> simp [throwSpec]

theorem forLoop_succ {σ : Type} (body : Int → σ → Result σ) (k : Nat) (s : σ) :
    forLoop body (k + 1) s = forLoop body k s >>= body (k : Int) := rfl

@[simp] theorem forLoop_zero {σ : Type} (body : Int → σ → Result σ) (s : σ) :
    forLoop body 0 s = .ok s := rfl

/-- Two loops whose bodies agree on the iterations run and on every state are equal. -/
theorem forLoop_congr {σ : Type} (b c : Int → σ → Result σ) (n : Nat)
    (h : ∀ k : Nat, k < n → ∀ s, b k s = c k s) (s : σ) :
    forLoop b n s = forLoop c n s := by
  induction n with
  | zero => rfl
  | succ k ih =>
    rw [forLoop_succ, forLoop_succ, ih (fun j hj => h j (by omega))]
    cases forLoop c k s with
    | error e => rfl
    | ok t => exact h k (by omega) t

@[simp] theorem Matrix.filled_nbRow (X : Matrix α) (rows cols : Int) (f : Int → Int → α) :
    (X.filled rows cols f).nbRow = X.nbRow := rfl

@[simp] theorem Matrix.filled_nbColumn (X : Matrix α) (rows cols : Int) (f : Int → Int → α) :
    (X.filled rows cols f).nbColumn = X.nbColumn := rfl

theorem Matrix.filled_array (X : Matrix α) (rows cols : Int) (f : Int → Int → α) (r s : Int) :
    (X.filled rows cols f).array r s =
      if 0 ≤ r ∧ r < rows ∧ 0 ≤ s ∧ s < cols then f r s else X.array r s := rfl

theorem Matrix.ext_array {X Y : Matrix α} (h1 : X.nbRow = Y.nbRow)
    (h2 : X.nbColumn = Y.nbColumn) (h3 : ∀ r s, X.array r s = Y.array r s) : X = Y := by
  cases X; cases Y
  simp only [Matrix.mk.injEq]
  exact ⟨h1, h2, funext fun r => funext fun s => h3 r s⟩

/-- One row of a filling loop: the body writes the cell `(i, j)`. -/
theorem forLoop_fill_row (b : Int → Matrix α → Result (Matrix α)) (g : Int → α) (i : Int)
    (n : Nat) (X : Matrix α)
    (hb : ∀ (j : Nat) (t : Matrix α), j < n → t.nbRow = X.nbRow → t.nbColumn = X.nbColumn →
      b j t = .ok (t.write i j (g j))) :
    ∀ k : Nat, k ≤ n → forLoop b k X = .ok { X with array := fun r s =>
      if r = i ∧ 0 ≤ s ∧ s < (k : Int) then (g s) else X.array r s } := by
  intro k
  induction k with
  | zero =>
    intro _
    simp only [forLoop_zero]
    congr 1
    refine Matrix.ext_array (by rfl) (by rfl) ?_
    intro r s
    simp only [Nat.cast_zero]
    rw [if_neg (by omega)]
  | succ k ih =>
    intro hk
    rw [forLoop_succ, ih (by omega)]
    show b (k : Int) _ = _
    refine (hb k _ (by omega) (by rfl) (by rfl)).trans ?_
    congr 1
    refine Matrix.ext_array (by rfl) (by rfl) ?_
    intro r s
    simp only [Matrix.write, Nat.cast_succ]
    by_cases h1 : r = i ∧ s = (k : Int)
    · rw [if_pos h1, if_pos (by omega), h1.2]
    · rw [if_neg h1]
      by_cases h2 : r = i ∧ 0 ≤ s ∧ s < (k : Int)
      · rw [if_pos h2, if_pos (by omega)]
      · rw [if_neg h2, if_neg (by omega)]

/-- A filling loop: the body of the nested loops writes the cell `(i, j)`. -/
theorem forLoop_fill (b : Int → Int → Matrix α → Result (Matrix α)) (f : Int → Int → α)
    (m n : Nat) (X : Matrix α)
    (hb : ∀ (i j : Nat) (t : Matrix α), i < m → j < n → t.nbRow = X.nbRow →
      t.nbColumn = X.nbColumn → b i j t = .ok (t.write i j (f i j))) :
    ∀ k : Nat, k ≤ m →
      forLoop (fun i t => forLoop (fun j t => b i j t) n t) k X = .ok (X.filled k n f) := by
  intro k
  induction k with
  | zero =>
    intro _
    simp only [forLoop_zero]
    congr 1
    refine Matrix.ext_array (by rfl) (by rfl) ?_
    intro r s
    rw [Matrix.filled_array, if_neg (by simp only [Nat.cast_zero]; omega)]
  | succ k ih =>
    intro hk
    rw [forLoop_succ, ih (by omega)]
    show forLoop (fun j t => b (k : Int) j t) n _ = _
    refine (forLoop_fill_row (fun j t => b (k : Int) j t) (fun s => f k s) k n (X.filled k n f)
      (fun j t hj h1 h2 => hb k j t (by omega) hj h1 h2) n (le_refl n)).trans ?_
    congr 1
    refine Matrix.ext_array (by rfl) (by rfl) ?_
    intro r s
    simp only [Matrix.filled_array, Nat.cast_succ]
    by_cases h1 : r = (k : Int) ∧ 0 ≤ s ∧ s < (n : Int)
    · rw [if_pos h1, if_pos (by omega), h1.1]
    · rw [if_neg h1]
      by_cases h2 : 0 ≤ r ∧ r < (k : Int) ∧ 0 ≤ s ∧ s < (n : Int)
      · rw [if_pos h2, if_pos (by omega)]
      · rw [if_neg h2, if_neg (by omega)]

/-- One row of a transposing loop: the body writes the cell `(j, i)`. -/
theorem forLoop_fill_column (b : Int → Matrix α → Result (Matrix α)) (g : Int → α) (i : Int)
    (n : Nat) (X : Matrix α)
    (hb : ∀ (j : Nat) (t : Matrix α), j < n → t.nbRow = X.nbRow → t.nbColumn = X.nbColumn →
      b j t = .ok (t.write j i (g j))) :
    ∀ k : Nat, k ≤ n → forLoop b k X = .ok { X with array := fun r s =>
      if s = i ∧ 0 ≤ r ∧ r < (k : Int) then (g r) else X.array r s } := by
  intro k
  induction k with
  | zero =>
    intro _
    simp only [forLoop_zero]
    congr 1
    refine Matrix.ext_array (by rfl) (by rfl) ?_
    intro r s
    simp only [Nat.cast_zero]
    rw [if_neg (by omega)]
  | succ k ih =>
    intro hk
    rw [forLoop_succ, ih (by omega)]
    show b (k : Int) _ = _
    refine (hb k _ (by omega) (by rfl) (by rfl)).trans ?_
    congr 1
    refine Matrix.ext_array (by rfl) (by rfl) ?_
    intro r s
    simp only [Matrix.write, Nat.cast_succ]
    by_cases h1 : r = (k : Int) ∧ s = i
    · rw [if_pos h1, if_pos (by omega), h1.1]
    · rw [if_neg h1]
      by_cases h2 : s = i ∧ 0 ≤ r ∧ r < (k : Int)
      · rw [if_pos h2, if_pos (by omega)]
      · rw [if_neg h2, if_neg (by omega)]

/-- A transposing loop: the body of the nested loops writes the cell `(j, i)`. -/
theorem forLoop_fill_transposed (b : Int → Int → Matrix α → Result (Matrix α))
    (f : Int → Int → α) (m n : Nat) (X : Matrix α)
    (hb : ∀ (i j : Nat) (t : Matrix α), i < m → j < n → t.nbRow = X.nbRow →
      t.nbColumn = X.nbColumn → b i j t = .ok (t.write j i (f i j))) :
    ∀ k : Nat, k ≤ m →
      forLoop (fun i t => forLoop (fun j t => b i j t) n t) k X =
        .ok (X.filled n k (fun r s => f s r)) := by
  intro k
  induction k with
  | zero =>
    intro _
    simp only [forLoop_zero]
    congr 1
    refine Matrix.ext_array (by rfl) (by rfl) ?_
    intro r s
    rw [Matrix.filled_array, if_neg (by simp only [Nat.cast_zero]; omega)]
  | succ k ih =>
    intro hk
    rw [forLoop_succ, ih (by omega)]
    show forLoop (fun j t => b (k : Int) j t) n _ = _
    refine (forLoop_fill_column (fun j t => b (k : Int) j t) (fun r => f k r) k n
      (X.filled n k (fun r s => f s r))
      (fun j t hj h1 h2 => hb k j t (by omega) hj h1 h2) n (le_refl n)).trans ?_
    congr 1
    refine Matrix.ext_array (by rfl) (by rfl) ?_
    intro r s
    simp only [Matrix.filled_array, Nat.cast_succ]
    by_cases h1 : s = (k : Int) ∧ 0 ≤ r ∧ r < (n : Int)
    · rw [if_pos h1, if_pos (by omega), h1.1]
    · rw [if_neg h1]
      by_cases h2 : 0 ≤ r ∧ r < (n : Int) ∧ 0 ≤ s ∧ s < (k : Int)
      · rw [if_pos h2, if_pos (by omega)]
      · rw [if_neg h2, if_neg (by omega)]

theorem Matrix.setValue_ok (t : Matrix α) (i j : Int) (x : α) (hi : 0 ≤ i) (hi2 : i < t.nbRow)
    (hj : 0 ≤ j) (hj2 : j < t.nbColumn) : t.setValue i j x = .ok (t.write i j x) := by
  unfold Matrix.setValue
  rw [if_pos ⟨hi, hi2, hj, hj2⟩]

theorem Matrix.getValue_ok (t : Matrix α) (i j : Int) (hi : 0 ≤ i) (hi2 : i < t.nbRow)
    (hj : 0 ≤ j) (hj2 : j < t.nbColumn) : t.getValue i j = .ok (t.array i j) := by
  unfold Matrix.getValue
  rw [if_pos ⟨hi, hi2, hj, hj2⟩]

end LoopLemmas

end reactphysics3d

namespace reactphysics3d

/-! ## The constructor and the operations that fill a fresh matrix -/

section FillLemmas

variable {α : Type} [Zero α]

/-- The constructor on positive sizes: every cell of the fresh storage is overwritten by 0. -/
theorem Matrix.ctor_ok (uninit : Int → Int → α) (m n : Int) (hm : 0 < m) (hn : 0 < n) :
    Matrix.ctor uninit m n =
      .ok ((Matrix.mk m n uninit).filled m n (fun _ _ => 0)) := by
  unfold Matrix.ctor
  rw [if_pos ⟨hm, hn⟩]
  have h := forLoop_fill (fun i j t => t.setValue i j (0 : α)) (fun _ _ => 0) m.toNat n.toNat
    (Matrix.mk m n uninit)
    (fun i j t hi hj h1 h2 => Matrix.setValue_ok t i j 0 (by omega) (by rw [h1]; show (i : Int) < m; omega)
      (by omega) (by rw [h2]; show (j : Int) < n; omega)) m.toNat (le_refl _)
  rw [Int.toNat_of_nonneg (le_of_lt hm), Int.toNat_of_nonneg (le_of_lt hn)] at h
  rw [h]
  rfl

/-- The constructor on a size that is not positive. -/
theorem Matrix.ctor_error (uninit : Int → Int → α) (m n : Int) (h : m ≤ 0 ∨ n ≤ 0) :
    Matrix.ctor uninit m n = .error .invalid_argument := by
  unfold Matrix.ctor
  rw [if_neg (by omega)]
  rfl

/-- The transposed matrix, in closed form. -/
theorem Matrix.getTranspose_ok (uninit : Int → Int → α) (M : Matrix α) (hm : 0 < M.nbRow)
    (hn : 0 < M.nbColumn) :
    M.getTranspose uninit =
      .ok ((Matrix.mk M.nbColumn M.nbRow uninit).filled M.nbColumn M.nbRow
        (fun r s => M.array s r)) := by
  unfold Matrix.getTranspose
  rw [Matrix.ctor_ok uninit _ _ hn hm]
  show forLoop _ _ _ = _
  have h := forLoop_fill_transposed (fun i j t => t.setValue j i (M.array i j))
    (fun i j => M.array i j) M.nbRow.toNat M.nbColumn.toNat
    ((Matrix.mk M.nbColumn M.nbRow uninit).filled M.nbColumn M.nbRow (fun _ _ => 0))
    (fun i j t hi hj h1 h2 => Matrix.setValue_ok t j i _ (by omega)
      (by rw [h1]; show (j : Int) < M.nbColumn; omega) (by omega)
      (by rw [h2]; show (i : Int) < M.nbRow; omega)) M.nbRow.toNat (le_refl _)
  rw [Int.toNat_of_nonneg (le_of_lt hm), Int.toNat_of_nonneg (le_of_lt hn)] at h
  rw [h]
  congr 1
  refine Matrix.ext_array (by rfl) (by rfl) ?_
  intro r s
  simp only [Matrix.filled_array]
  split <;> rfl

/-- The product with a number, in closed form. -/
theorem Matrix.operatorMulScalar_ok [Mul α] (uninit : Int → Int → α) (M : Matrix α) (nb : α)
    (hm : 0 < M.nbRow) (hn : 0 < M.nbColumn) :
    M.operatorMulScalar uninit nb =
      .ok ((Matrix.mk M.nbRow M.nbColumn uninit).filled M.nbRow M.nbColumn
        (fun r s => M.array r s * nb)) := by
  unfold Matrix.operatorMulScalar
  rw [Matrix.ctor_ok uninit _ _ hm hn]
  show forLoop _ _ _ = _
  have h := forLoop_fill (fun i j t => do
      let x ← M.getValue i j
      t.setValue i j (x * nb))
    (fun i j => M.array i j * nb) M.nbRow.toNat M.nbColumn.toNat
    ((Matrix.mk M.nbRow M.nbColumn uninit).filled M.nbRow M.nbColumn (fun _ _ => 0))
    (fun i j t hi hj h1 h2 => by
      beta_reduce
      rw [Matrix.getValue_ok M i j (by omega) (by omega) (by omega) (by omega)]
      exact Matrix.setValue_ok t i j _ (by omega)
        (by rw [h1]; show (i : Int) < M.nbRow; omega) (by omega)
        (by rw [h2]; show (j : Int) < M.nbColumn; omega)) M.nbRow.toNat (le_refl _)
  rw [Int.toNat_of_nonneg (le_of_lt hm), Int.toNat_of_nonneg (le_of_lt hn)] at h
  rw [h]
  congr 1
  refine Matrix.ext_array (by rfl) (by rfl) ?_
  intro r s
  simp only [Matrix.filled_array]
  split <;> rfl

/-- The identity matrix, in closed form. -/
theorem Matrix.identityMatrix_ok [One α] (uninit : Int → Int → α) (n : Int) (hn : 0 < n) :
    Matrix.identityMatrix uninit n =
      .ok ((Matrix.mk n n uninit).filled n n (fun r s => if r = s then 1 else 0)) := by
  unfold Matrix.identityMatrix
  rw [if_pos hn, Matrix.ctor_ok uninit _ _ hn hn]
  have h := forLoop_fill (fun i j t => if i = j then t.setValue i j (1 : α) else t.setValue i j 0)
    (fun i j => if i = j then 1 else 0) n.toNat n.toNat
    ((Matrix.mk n n uninit).filled n n (fun _ _ => 0))
    (fun i j t hi hj h1 h2 => by
      have e := fun x : α => Matrix.setValue_ok t i j x (by omega)
        (by rw [h1]; show (i : Int) < n; omega) (by omega)
        (by rw [h2]; show (j : Int) < n; omega)
      beta_reduce
      by_cases hij : (i : Int) = j
      · rw [if_pos hij, if_pos hij]
        exact e 1
      · rw [if_neg hij, if_neg hij]
        exact e 0) n.toNat (le_refl _)
  rw [Int.toNat_of_nonneg (le_of_lt hn)] at h
  show throwSpec _ (forLoop _ _ _) = _
  rw [h]
  show Except.ok _ = Except.ok _
  congr 1
  refine Matrix.ext_array (by rfl) (by rfl) ?_
  intro r s
  simp only [Matrix.filled_array]
  split <;> rfl

/-- The sum and the difference: the loop that combines two matrices cell by cell. -/
theorem Matrix.combine_ok (uninit : Int → Int → α) (op : α → α → α) (A B : Matrix α)
    (hm : 0 < A.nbRow) (hn : 0 < A.nbColumn) (h1 : A.nbRow = B.nbRow)
    (h2 : A.nbColumn = B.nbColumn) :
    (do
      let sumMatrix ← Matrix.ctor uninit A.nbRow A.nbColumn
      forLoop (fun i t => forLoop (fun j (t : Matrix α) => do
          let x ← A.getValue i j
          let y ← B.getValue i j
          t.setValue i j (op x y)) A.nbColumn.toNat t) A.nbRow.toNat sumMatrix) =
      .ok ((Matrix.mk A.nbRow A.nbColumn uninit).filled A.nbRow A.nbColumn
        (fun r s => op (A.array r s) (B.array r s))) := by
  rw [Matrix.ctor_ok uninit _ _ hm hn]
  show forLoop _ _ _ = _
  have h := forLoop_fill (fun i j t => do
      let x ← A.getValue i j
      let y ← B.getValue i j
      t.setValue i j (op x y))
    (fun i j => op (A.array i j) (B.array i j)) A.nbRow.toNat A.nbColumn.toNat
    ((Matrix.mk A.nbRow A.nbColumn uninit).filled A.nbRow A.nbColumn (fun _ _ => 0))
    (fun i j t hi hj e1 e2 => by
      beta_reduce
      rw [Matrix.getValue_ok A i j (by omega) (by omega) (by omega) (by omega),
        Matrix.getValue_ok B i j (by omega) (by omega) (by omega) (by omega)]
      exact Matrix.setValue_ok t i j _ (by omega)
        (by rw [e1]; show (i : Int) < A.nbRow; omega) (by omega)
        (by rw [e2]; show (j : Int) < A.nbColumn; omega)) A.nbRow.toNat (le_refl _)
  rw [Int.toNat_of_nonneg (le_of_lt hm), Int.toNat_of_nonneg (le_of_lt hn)] at h
  rw [h]
  congr 1
  refine Matrix.ext_array (by rfl) (by rfl) ?_
  intro r s
  simp only [Matrix.filled_array]
  split <;> rfl

end FillLemmas

end reactphysics3d

namespace reactphysics3d

/-! ## The cofactor matrix -/

section CofactorLemmas

variable {α : Type}

theorem Matrix.getCofactor_eq [Zero α] (uninit : Int → Int → α) (M : Matrix α) (i j : Int) :
    M.getCofactor uninit i j =
      throwSpec .invalid_argument
        (if 0 ≤ i ∧ i < M.nbRow ∧ 0 ≤ j ∧ j < M.nbColumn then do
          let cofactor ← Matrix.ctor uninit (M.nbRow - 1) (M.nbColumn - 1)
          let st ← forLoop (fun s st => forLoop (fun r st => M.cofactorStep i j s r st)
            M.nbRow.toNat st) M.nbColumn.toNat (cofactor, 0, 0)
          pure st.1
        else .error .invalid_argument) := rfl

theorem Matrix.cofactorStep_skip (M : Matrix α) (i j s r : Int) (st : Matrix α × Int × Int)
    (h : r = i ∨ s = j) : M.cofactorStep i j s r st = .ok st := by
  unfold Matrix.cofactorStep
  rw [if_neg (by omega)]
  rfl

theorem Matrix.cofactorStep_copy (M : Matrix α) (i j s r : Int) (C : Matrix α) (u v : Int)
    (hr : r ≠ i) (hs : s ≠ j) (hr1 : 0 ≤ r) (hr2 : r < M.nbRow) (hs1 : 0 ≤ s)
    (hs2 : s < M.nbColumn) (hu1 : 0 ≤ u) (hu2 : u < C.nbRow) (hv1 : 0 ≤ v)
    (hv2 : v < C.nbColumn) :
    M.cofactorStep i j s r (C, u, v) =
      .ok (C.write u v (M.array r s), if u + 1 = C.nbRow then 0 else u + 1,
        if u + 1 = C.nbRow then v + 1 else v) := by
  unfold Matrix.cofactorStep
  rw [if_pos ⟨hr, hs⟩, Matrix.getValue_ok M r s hr1 hr2 hs1 hs2]
  show (do
    let cofactor ← C.setValue u v (M.array r s)
    if u + 1 = cofactor.nbRow then pure (cofactor, 0, v + 1) else pure (cofactor, u + 1, v)) = _
  rw [Matrix.setValue_ok C u v _ hu1 hu2 hv1 hv2]
  show (if u + 1 = C.nbRow then (pure (C.write u v (M.array r s), 0, v + 1) : Result _)
    else pure (C.write u v (M.array r s), u + 1, v)) = _
  by_cases h : u + 1 = C.nbRow
  · rw [if_pos h, if_pos h, if_pos h]; rfl
  · rw [if_neg h, if_neg h, if_neg h]; rfl

/-- One column of the loops of `getCofactor`, for a column `s` that is kept: column `v` of the
cofactor receives the elements of column `s` outside row `i`. -/
theorem Matrix.cofactor_column (M : Matrix α) (i j s : Int) (C : Matrix α) (v : Int)
    (hi : 0 ≤ i) (hi2 : i < M.nbRow) (hs : 0 ≤ s) (hs2 : s < M.nbColumn) (hsj : s ≠ j)
    (hC : C.nbRow = M.nbRow - 1) (hv : 0 ≤ v) (hv2 : v < C.nbColumn) (h2 : 2 ≤ M.nbRow) :
    ∀ k : Nat, (k : Int) ≤ M.nbRow →
      forLoop (fun r st => M.cofactorStep i j s r st) k (C, 0, v) =
        .ok (C.withColumn M i s v (rowsBelow i k),
              if rowsBelow i k = M.nbRow - 1 then 0 else rowsBelow i k,
              if rowsBelow i k = M.nbRow - 1 then v + 1 else v) := by
  intro k
  induction k with
  | zero =>
    intro _
    have e : rowsBelow i ((0 : Nat) : Int) = 0 := by
      unfold rowsBelow; simp only [Nat.cast_zero]; rw [if_pos hi]
    rw [forLoop_zero, e, if_neg (by omega), if_neg (by omega)]
    congr 2
    refine Matrix.ext_array (by rfl) (by rfl) ?_
    intro a b
    show C.array a b = if b = v ∧ 0 ≤ a ∧ a < 0 then _ else _
    rw [if_neg (by omega)]
  | succ k ih =>
    intro hk
    rw [forLoop_succ, ih (by omega)]
    show M.cofactorStep i j s (k : Int) _ = _
    by_cases hki : (k : Int) = i
    · rw [Matrix.cofactorStep_skip M i j s k _ (Or.inl hki)]
      have e1 : rowsBelow i ((k + 1 : Nat) : Int) = rowsBelow i (k : Int) := by
        unfold rowsBelow; rw [if_neg (by omega), if_pos (by omega)]; omega
      rw [e1]
    · have e0 : rowsBelow i (k : Int) ≠ M.nbRow - 1 := by
        unfold rowsBelow; split <;> omega
      have e1 : rowsBelow i ((k + 1 : Nat) : Int) = rowsBelow i (k : Int) + 1 := by
        unfold rowsBelow; split <;> split <;> omega
      have e2 : 0 ≤ rowsBelow i (k : Int) := by
        unfold rowsBelow; split <;> omega
      have e3 : (if rowsBelow i (k : Int) < i then rowsBelow i (k : Int)
          else rowsBelow i (k : Int) + 1) = (k : Int) := by
        unfold rowsBelow; split <;> split <;> omega
      rw [if_neg e0, if_neg e0]
      refine (Matrix.cofactorStep_copy M i j s k (C.withColumn M i s v (rowsBelow i k))
        (rowsBelow i k) v hki hsj (by omega) (by omega) hs hs2 e2
        (by show rowsBelow i (k : Int) < C.nbRow; omega) hv hv2).trans ?_
      rw [e1]
      show Except.ok (_, (if rowsBelow i (k : Int) + 1 = C.nbRow then _ else _),
        (if rowsBelow i (k : Int) + 1 = C.nbRow then _ else _)) = _
      rw [hC]
      congr 2
      refine Matrix.ext_array (by rfl) (by rfl) ?_
      intro a b
      simp only [Matrix.write, Matrix.withColumn]
      by_cases h1 : a = rowsBelow i (k : Int) ∧ b = v
      · rw [if_pos h1, if_pos (by omega), h1.1, e3]
      · rw [if_neg h1]
        by_cases h3 : b = v ∧ 0 ≤ a ∧ a < rowsBelow i (k : Int)
        · rw [if_pos h3, if_pos (show b = v ∧ 0 ≤ a ∧ a < rowsBelow i (k : Int) + 1 by omega)]
        · rw [if_neg h3, if_neg (show ¬(b = v ∧ 0 ≤ a ∧ a < rowsBelow i (k : Int) + 1) by omega)]

/-- A column `s = j` of the loops of `getCofactor` leaves the state as it is. -/
theorem Matrix.cofactor_column_skipped (M : Matrix α) (i j : Int)
    (st : Matrix α × Int × Int) (k : Nat) :
    forLoop (fun r st => M.cofactorStep i j j r st) k st = .ok st := by
  induction k with
  | zero => rfl
  | succ k ih =>
    rw [forLoop_succ, ih]
    exact Matrix.cofactorStep_skip M i j j k st (Or.inr rfl)

/-- The loops of `getCofactor`: after the columns below `k`, the columns of the cofactor
below `rowsBelow j k` hold the elements of `M` outside row `i` and column `j`. -/
theorem Matrix.cofactor_loops (M : Matrix α) (i j : Int) (C : Matrix α)
    (hi : 0 ≤ i) (hi2 : i < M.nbRow) (hj : 0 ≤ j) (hj2 : j < M.nbColumn)
    (hC : C.nbRow = M.nbRow - 1) (hC2 : C.nbColumn = M.nbColumn - 1) (h2 : 2 ≤ M.nbRow) :
    ∀ k : Nat, (k : Int) ≤ M.nbColumn →
      forLoop (fun s st => forLoop (fun r st => M.cofactorStep i j s r st) M.nbRow.toNat st)
          k (C, 0, 0) =
        .ok (C.filled (M.nbRow - 1) (rowsBelow j k)
              (fun u v => M.array (if u < i then u else u + 1) (if v < j then v else v + 1)),
            0, rowsBelow j k) := by
  intro k
  induction k with
  | zero =>
    intro _
    have e : rowsBelow j ((0 : Nat) : Int) = 0 := by
      unfold rowsBelow; simp only [Nat.cast_zero]; rw [if_pos hj]
    rw [forLoop_zero, e]
    congr 2
    refine Matrix.ext_array (by rfl) (by rfl) ?_
    intro a b
    rw [Matrix.filled_array, if_neg (by omega)]
  | succ k ih =>
    intro hk
    rw [forLoop_succ, ih (by omega)]
    show forLoop (fun r st => M.cofactorStep i j (k : Int) r st) M.nbRow.toNat _ = _
    by_cases hkj : (k : Int) = j
    · rw [hkj, Matrix.cofactor_column_skipped]
      have e1 : rowsBelow j ((k + 1 : Nat) : Int) = rowsBelow j j := by
        unfold rowsBelow; rw [if_neg (by omega), if_pos (by omega)]; omega
      rw [e1]
    · have e1 : rowsBelow j ((k + 1 : Nat) : Int) = rowsBelow j (k : Int) + 1 := by
        unfold rowsBelow; split <;> split <;> omega
      have e2 : 0 ≤ rowsBelow j (k : Int) := by
        unfold rowsBelow; split <;> omega
      have e3 : (if rowsBelow j (k : Int) < j then rowsBelow j (k : Int)
          else rowsBelow j (k : Int) + 1) = (k : Int) := by
        unfold rowsBelow; split <;> split <;> omega
      have e4 : rowsBelow j (k : Int) < M.nbColumn - 1 := by
        unfold rowsBelow; split <;> omega
      have e5 : rowsBelow i ((M.nbRow.toNat : Nat) : Int) = M.nbRow - 1 := by
        unfold rowsBelow; rw [if_neg (by omega)]; omega
      refine (Matrix.cofactor_column M i j k
        (C.filled (M.nbRow - 1) (rowsBelow j k)
          (fun u v => M.array (if u < i then u else u + 1) (if v < j then v else v + 1)))
        (rowsBelow j k) hi hi2 (by omega) (by omega) hkj hC e2
        (by show rowsBelow j (k : Int) < C.nbColumn; omega) h2 M.nbRow.toNat (by omega)).trans ?_
      rw [e5, if_pos rfl, if_pos rfl, e1]
      congr 2
      refine Matrix.ext_array (by rfl) (by rfl) ?_
      intro a b
      simp only [Matrix.withColumn, Matrix.filled_array]
      by_cases h1 : b = rowsBelow j (k : Int) ∧ 0 ≤ a ∧ a < M.nbRow - 1
      · rw [if_pos h1, if_pos (show 0 ≤ a ∧ a < M.nbRow - 1 ∧ 0 ≤ b ∧
          b < rowsBelow j (k : Int) + 1 by omega), h1.1, e3]
      · rw [if_neg h1]
        by_cases h3 : 0 ≤ a ∧ a < M.nbRow - 1 ∧ 0 ≤ b ∧ b < rowsBelow j (k : Int)
        · rw [if_pos h3, if_pos (show 0 ≤ a ∧ a < M.nbRow - 1 ∧ 0 ≤ b ∧
            b < rowsBelow j (k : Int) + 1 by omega)]
        · rw [if_neg h3, if_neg (show ¬(0 ≤ a ∧ a < M.nbRow - 1 ∧ 0 ≤ b ∧
            b < rowsBelow j (k : Int) + 1) by omega)]

/-- The cofactor matrix of a matrix with at least two rows and two columns, in closed form:
`M` without row `i` and column `j`. -/
theorem Matrix.getCofactor_ok [Zero α] (uninit : Int → Int → α) (M : Matrix α) (i j : Int)
    (hi : 0 ≤ i) (hi2 : i < M.nbRow) (hj : 0 ≤ j) (hj2 : j < M.nbColumn)
    (h2 : 2 ≤ M.nbRow) (h3 : 2 ≤ M.nbColumn) :
    M.getCofactor uninit i j = .ok (M.minor uninit i j) := by
  rw [Matrix.getCofactor_eq, if_pos ⟨hi, hi2, hj, hj2⟩,
    Matrix.ctor_ok uninit _ _ (by omega) (by omega)]
  show throwSpec _ (forLoop _ _ _ >>= _) = _
  have h := Matrix.cofactor_loops M i j
    ((Matrix.mk (M.nbRow - 1) (M.nbColumn - 1) uninit).filled (M.nbRow - 1) (M.nbColumn - 1)
      (fun _ _ => 0)) hi hi2 hj hj2 (by rfl) (by rfl) h2 M.nbColumn.toNat (by omega)
  rw [h]
  show Except.ok _ = Except.ok _
  congr 1
  have e5 : rowsBelow j ((M.nbColumn.toNat : Nat) : Int) = M.nbColumn - 1 := by
    unfold rowsBelow; rw [if_neg (by omega)]; omega
  rw [e5]
  refine Matrix.ext_array (by rfl) (by rfl) ?_
  intro a b
  simp only [Matrix.minor, Matrix.filled_array]
  split <;> rfl

/-- The cofactor matrix of a matrix with a single row or a single column: the constructor
of the cofactor throws. -/
theorem Matrix.getCofactor_thin [Zero α] (uninit : Int → Int → α) (M : Matrix α) (i j : Int)
    (h : M.nbRow ≤ 1 ∨ M.nbColumn ≤ 1) :
    M.getCofactor uninit i j = .error .invalid_argument := by
  rw [Matrix.getCofactor_eq]
  by_cases hr : 0 ≤ i ∧ i < M.nbRow ∧ 0 ≤ j ∧ j < M.nbColumn
  · rw [if_pos hr, Matrix.ctor_error uninit _ _ (by omega)]
    rfl
  · rw [if_neg hr]
    rfl

end CofactorLemmas

end reactphysics3d

namespace reactphysics3d

/-! ## The determinant -/

section DeterminantLemmas

variable {α : Type} [CommRing α] [DecidableEq α]

omit [CommRing α] [DecidableEq α] in
theorem Matrix.toSquare_apply (M : Matrix α) (n : Nat) (a b : Fin n) :
    M.toSquare n a b = M.array ((a : Nat) : Int) ((b : Nat) : Int) := rfl

omit [CommRing α] in
theorem Matrix.getDeterminantFuel_succ [Zero α] [One α] [Add α] [Sub α] [Mul α] [Neg α]
    (uninit : Int → Int → α) (fuel : Nat) (M : Matrix α) :
    Matrix.getDeterminantFuel uninit (fuel + 1) M =
      throwSpec .MatrixException
        (if M.nbRow = M.nbColumn then
          if M.nbRow = 1 then M.getValue 0 0
          else if M.nbRow = 2 then do
            let a ← M.getValue 0 0
            let d ← M.getValue 1 1
            let c ← M.getValue 1 0
            let b ← M.getValue 0 1
            pure (a * d - c * b)
          else do
            let st ← forLoop (fun j st => Matrix.detStep uninit fuel M j st)
              M.nbColumn.toNat (0, 1)
            pure st.1
        else .error .MatrixException) := rfl

omit [CommRing α] [DecidableEq α] in
theorem succAbove_val_int {n : Nat} (i : Fin (n + 1)) (a : Fin n) :
    (((i.succAbove a : Fin (n + 1)) : Nat) : Int) =
      if ((a : Nat) : Int) < ((i : Nat) : Int) then ((a : Nat) : Int)
      else ((a : Nat) : Int) + 1 := by
  by_cases h : (a : Nat) < (i : Nat)
  · have h' : Fin.castSucc a < i := by
      rw [Fin.lt_def]; simpa using h
    rw [Fin.succAbove_of_castSucc_lt _ _ h', if_pos (by omega)]
    simp
  · have h' : i ≤ Fin.castSucc a := by
      rw [Fin.le_def]; simpa using Nat.le_of_not_lt h
    rw [Fin.succAbove_of_le_castSucc _ _ h', if_neg (by omega)]
    simp

omit [CommRing α] [DecidableEq α] in
/-- The matrix without row `i` and column `j` is the mathematical submatrix. -/
theorem Matrix.toSquare_minor (uninit : Int → Int → α) (M : Matrix α) (n : Nat)
    (h1 : M.nbRow = (n : Int) + 1) (h2 : M.nbColumn = (n : Int) + 1) (i j : Fin (n + 1)) :
    (M.minor uninit ((i : Nat) : Int) ((j : Nat) : Int)).toSquare n =
      (M.toSquare (n + 1)).submatrix i.succAbove j.succAbove := by
  ext a b
  rw [Matrix.toSquare_apply, Matrix.submatrix_apply, Matrix.toSquare_apply]
  have ha := a.isLt
  have hb := b.isLt
  unfold Matrix.minor
  rw [Matrix.filled_array, if_pos (by omega), succAbove_val_int, succAbove_val_int]

/-- One iteration of the loop of `getDeterminant`, when the determinant of the cofactor
matrix is `d`. -/
theorem Matrix.detStep_ok (uninit : Int → Int → α) (fuel : Nat) (M : Matrix α) (j : Int)
    (st : α × α) (d : α) (hj : 0 ≤ j) (hj2 : j < M.nbColumn) (h2 : 2 ≤ M.nbRow)
    (h3 : 2 ≤ M.nbColumn)
    (hd : Matrix.getDeterminantFuel uninit fuel (M.minor uninit 0 j) = .ok d) :
    Matrix.detStep uninit fuel M j st =
      .ok (st.1 + st.2 * M.array 0 j * d, if st.2 = 1 then -1 else 1) := by
  unfold Matrix.detStep
  rw [Matrix.getValue_ok M 0 j (le_refl 0) (by omega) hj hj2,
    Matrix.getCofactor_ok uninit M 0 j (le_refl 0) (by omega) hj hj2 h2 h3]
  show (Matrix.getDeterminantFuel uninit fuel (M.minor uninit 0 j) >>= _) = _
  rw [hd]
  show (if st.2 = 1 then (pure (_, -1) : Result (α × α)) else pure (_, 1)) = _
  split <;> rfl

/-- The loop of `getDeterminant`: after the columns below `k` the state holds the partial
expansion along the first row and the sign of the next term. -/
theorem Matrix.det_loop (uninit : Int → Int → α) (fuel : Nat) (M : Matrix α) (D : Nat → α)
    (h2 : 2 ≤ M.nbRow) (h3 : 2 ≤ M.nbColumn)
    (hD : ∀ j : Nat, (j : Int) < M.nbColumn →
      Matrix.getDeterminantFuel uninit fuel (M.minor uninit 0 j) = .ok (D j)) :
    ∀ k : Nat, (k : Int) ≤ M.nbColumn →
      forLoop (fun j st => Matrix.detStep uninit fuel M j st) k (0, 1) =
        .ok (∑ j ∈ Finset.range k, (-1) ^ j * M.array 0 j * D j, (-1) ^ k) := by
  intro k
  induction k with
  | zero => intro _; simp
  | succ k ih =>
    intro hk
    rw [forLoop_succ, ih (by omega)]
    show Matrix.detStep uninit fuel M (k : Int) _ = _
    rw [Matrix.detStep_ok uninit fuel M k _ (D k) (by omega) (by omega) h2 h3 (hD k (by omega))]
    rw [Finset.sum_range_succ]
    congr 2
    rcases neg_one_pow_eq_or α k with h | h
    · rw [if_pos h, pow_succ, h]; simp
    · by_cases h1 : ((-1 : α)) ^ k = 1
      · rw [if_pos h1, pow_succ, h1]; simp
      · rw [if_neg h1, pow_succ, h]; simp

/-- With enough fuel, `getDeterminant` on a square matrix of positive dimension returns the
mathematical determinant. -/
theorem Matrix.getDeterminantFuel_eq_det (uninit : Int → Int → α) :
    ∀ (n fuel : Nat) (M : Matrix α), M.nbRow = (n : Int) + 1 → M.nbColumn = (n : Int) + 1 →
      n < fuel → Matrix.getDeterminantFuel uninit fuel M = .ok (Matrix.det (M.toSquare (n + 1))) := by
  intro n
  induction n with
  | zero =>
    intro fuel M h1 h2 hf
    obtain ⟨f, rfl⟩ : ∃ f, fuel = f + 1 := ⟨fuel - 1, by omega⟩
    simp only [Nat.cast_zero, zero_add] at h1 h2
    rw [Matrix.getDeterminantFuel_succ, if_pos (by omega), if_pos h1,
      Matrix.getValue_ok M 0 0 (le_refl 0) (by omega) (le_refl 0) (by omega)]
    rw [throwSpec_ok, Matrix.det_fin_one, Matrix.toSquare_apply]
    simp
  | succ n ih =>
    intro fuel M h1 h2 hf
    obtain ⟨f, rfl⟩ : ∃ f, fuel = f + 1 := ⟨fuel - 1, by omega⟩
    push_cast at h1 h2
    rw [Matrix.getDeterminantFuel_succ, if_pos (by omega), if_neg (by omega)]
    by_cases hn : n = 0
    · subst hn
      simp only [Nat.cast_zero, zero_add] at h1 h2
      rw [if_pos (by omega),
        Matrix.getValue_ok M 0 0 (le_refl 0) (by omega) (le_refl 0) (by omega),
        Matrix.getValue_ok M 1 1 (by omega) (by omega) (by omega) (by omega),
        Matrix.getValue_ok M 1 0 (by omega) (by omega) (by omega) (by omega),
        Matrix.getValue_ok M 0 1 (by omega) (by omega) (by omega) (by omega)]
      show Except.ok _ = Except.ok _
      rw [Matrix.det_fin_two]
      simp only [Matrix.toSquare_apply]
      congr 1
      simp
      ring
    · rw [if_neg (by omega)]
      have hloop := Matrix.det_loop uninit f M
        (fun j => Matrix.det ((M.minor uninit 0 (j : Int)).toSquare (n + 1)))
        (by omega) (by omega)
        (fun j hj => ih f (M.minor uninit 0 j) (by show M.nbRow - 1 = _; omega)
          (by show M.nbColumn - 1 = _; omega) (by omega))
        M.nbColumn.toNat (by omega)
      show throwSpec _ (forLoop _ _ _ >>= _) = _
      rw [hloop]
      show Except.ok _ = Except.ok _
      congr 1
      have e : M.nbColumn.toNat = n + 1 + 1 := by omega
      rw [e, Matrix.det_succ_row_zero]
      refine (Finset.sum_range _).trans ?_
      refine Finset.sum_congr rfl ?_
      intro j _
      have hm := Matrix.toSquare_minor uninit M (n + 1) (by omega) (by omega) 0 j
      rw [Fin.succAbove_zero] at hm
      rw [Matrix.toSquare_apply]
      simp only [Fin.val_zero, Nat.cast_zero] at hm ⊢
      rw [hm]

/-- `getDeterminant` on a square matrix of positive dimension `n` returns the mathematical
determinant of its entries. -/
theorem Matrix.getDeterminant_eq_det (uninit : Int → Int → α) (M : Matrix α) (n : Nat)
    (hn : 0 < n) (h1 : M.nbRow = n) (h2 : M.nbColumn = n) :
    M.getDeterminant uninit = .ok (Matrix.det (M.toSquare n)) := by
  obtain ⟨m, rfl⟩ : ∃ m, n = m + 1 := ⟨n - 1, by omega⟩
  unfold Matrix.getDeterminant
  exact Matrix.getDeterminantFuel_eq_det uninit m _ M (by rw [h1]; push_cast; rfl)
    (by rw [h2]; push_cast; rfl) (by omega)

end DeterminantLemmas

end reactphysics3d

namespace reactphysics3d

/-! ## The product and the comparison -/

section ProductLemmas

variable {α : Type} [CommRing α]

/-- The innermost loop of the product: the sum of the products along row `i` and column
`j`. -/
theorem Matrix.mul_sum_loop (A B : Matrix α) (i j : Int) :
    ∀ k : Nat, forLoop (fun k sum => pure (sum + A.array i k * B.array k j)) k (0 : α) =
      .ok (∑ k ∈ Finset.range k, A.array i k * B.array k j) := by
  intro k
  induction k with
  | zero => simp
  | succ k ih =>
    rw [forLoop_succ, ih, Finset.sum_range_succ]
    rfl

/-- The product of two matrices, in closed form. -/
theorem Matrix.operatorMul_ok (uninit : Int → Int → α) (A B : Matrix α) (hm : 0 < A.nbRow)
    (hq : 0 < B.nbColumn) (h : A.nbColumn = B.nbRow) :
    A.operatorMul uninit B =
      .ok ((Matrix.mk A.nbRow B.nbColumn uninit).filled A.nbRow B.nbColumn
        (fun i j => ∑ k ∈ Finset.range A.nbColumn.toNat, A.array i k * B.array k j)) := by
  unfold Matrix.operatorMul
  rw [if_pos h, Matrix.ctor_ok uninit _ _ hm hq]
  have hl := forLoop_fill (fun i j res => do
      let sum ← forLoop (fun k sum => pure (sum + A.array i k * B.array k j))
        A.nbColumn.toNat (0 : α)
      pure (res.write i j sum))
    (fun i j => ∑ k ∈ Finset.range A.nbColumn.toNat, A.array i k * B.array k j)
    A.nbRow.toNat B.nbColumn.toNat
    ((Matrix.mk A.nbRow B.nbColumn uninit).filled A.nbRow B.nbColumn (fun _ _ => 0))
    (fun i j t _ _ _ _ => by
      beta_reduce
      rw [Matrix.mul_sum_loop]
      rfl) A.nbRow.toNat (le_refl _)
  rw [Int.toNat_of_nonneg (le_of_lt hm), Int.toNat_of_nonneg (le_of_lt hq)] at hl
  show throwSpec _ (forLoop _ _ _) = _
  rw [hl]
  show Except.ok _ = Except.ok _
  congr 1
  refine Matrix.ext_array (by rfl) (by rfl) ?_
  intro r s
  simp only [Matrix.filled_array]
  split <;> rfl

/-- The product of two matrices whose sizes do not fit. -/
theorem Matrix.operatorMul_error (uninit : Int → Int → α) (A B : Matrix α)
    (h : A.nbColumn ≠ B.nbRow) : A.operatorMul uninit B = .error .MatrixException := by
  unfold Matrix.operatorMul
  rw [if_neg h]
  rfl

/-- The product of the code is the product of the mathematical matrices. -/
theorem Matrix.toSquare_mul (uninit : Int → Int → α) (A B P : Matrix α) (n : Nat)
    (h1 : A.nbRow = n) (h2 : A.nbColumn = n) (h3 : B.nbColumn = n)
    (h : A.operatorMul uninit B = .ok ((Matrix.mk A.nbRow B.nbColumn uninit).filled A.nbRow
      B.nbColumn (fun i j => ∑ k ∈ Finset.range A.nbColumn.toNat, A.array i k * B.array k j)))
    (hP : A.operatorMul uninit B = .ok P) :
    P.toSquare n = A.toSquare n * B.toSquare n := by
  rw [h] at hP
  injection hP with hP
  subst hP
  ext a b
  have ha := a.isLt
  have hb := b.isLt
  rw [Matrix.toSquare_apply, Matrix.mul_apply, Matrix.filled_array, if_pos (by omega)]
  have e : A.nbColumn.toNat = n := by omega
  rw [e]
  exact Finset.sum_range _

end ProductLemmas

section CompareLemmas

variable {α : Type} [DecidableEq α]

theorem Matrix.operatorEq_eq (A B : Matrix α) :
    A.operatorEq B =
      throwSpec .MatrixException
        (if A.sameSize B then do
          let ret ← forLoop (fun i ret => forLoop (fun j ret => A.eqStep B i j ret)
            A.nbColumn.toNat ret) A.nbRow.toNat none
          match ret with
          | some b => pure b
          | none => pure true
        else .error .MatrixException) := rfl

/-- Once `operator==` has returned, the remaining iterations of a row do nothing. -/
theorem Matrix.eq_row_returned (A B : Matrix α) (i : Int) (b : Bool) (k : Nat) :
    forLoop (fun j ret => A.eqStep B i j ret) k (some b) = .ok (some b) := by
  induction k with
  | zero => rfl
  | succ k ih => rw [forLoop_succ, ih]; rfl

/-- A row of the loops of `operator==` either finds no difference or returns `false`. -/
theorem Matrix.eq_row_total (A B : Matrix α) (i : Int) (k : Nat) :
    forLoop (fun j ret => A.eqStep B i j ret) k none = .ok none ∨
      forLoop (fun j ret => A.eqStep B i j ret) k none = .ok (some false) := by
  induction k with
  | zero => exact Or.inl rfl
  | succ k ih =>
    rw [forLoop_succ]
    rcases ih with h | h
    · rw [h]
      show A.eqStep B i k none = _ ∨ A.eqStep B i k none = _
      unfold Matrix.eqStep
      by_cases hne : A.array i k ≠ B.array i k
      · right; rw [if_pos hne]; rfl
      · left; rw [if_neg hne]; rfl
    · rw [h]; exact Or.inr rfl

/-- A row of the loops of `operator==` on equal cells finds no difference. -/
theorem Matrix.eq_row_same (A B : Matrix α) (i : Int) (k : Nat)
    (h : ∀ j : Nat, j < k → A.array i j = B.array i j) :
    forLoop (fun j ret => A.eqStep B i j ret) k none = .ok none := by
  induction k with
  | zero => rfl
  | succ k ih =>
    rw [forLoop_succ, ih (fun j hj => h j (by omega))]
    show A.eqStep B i k none = _
    unfold Matrix.eqStep
    rw [if_neg (not_not.mpr (h k (by omega)))]
    rfl

/-- The loops of `operator==` either find no difference or return `false`. -/
theorem Matrix.eq_loops_total (A B : Matrix α) (n k : Nat) :
    forLoop (fun i ret => forLoop (fun j ret => A.eqStep B i j ret) n ret) k none = .ok none ∨
      forLoop (fun i ret => forLoop (fun j ret => A.eqStep B i j ret) n ret) k none =
        .ok (some false) := by
  induction k with
  | zero => exact Or.inl rfl
  | succ k ih =>
    rw [forLoop_succ]
    rcases ih with h | h
    · rw [h]; exact Matrix.eq_row_total A B k n
    · rw [h]; exact Or.inr (Matrix.eq_row_returned A B k false n)

/-- The loops of `operator==` on equal cells find no difference. -/
theorem Matrix.eq_loops_same (A B : Matrix α) (n k : Nat)
    (h : ∀ i j : Nat, i < k → j < n → A.array i j = B.array i j) :
    forLoop (fun i ret => forLoop (fun j ret => A.eqStep B i j ret) n ret) k none =
      .ok none := by
  induction k with
  | zero => rfl
  | succ k ih =>
    rw [forLoop_succ, ih (fun i j hi hj => h i j (by omega) hj)]
    exact Matrix.eq_row_same A B k n (fun j hj => h k j (by omega) hj)

/-- On matrices of the same size `operator==` returns a boolean. -/
theorem Matrix.operatorEq_total (A B : Matrix α) (h1 : A.nbRow = B.nbRow)
    (h2 : A.nbColumn = B.nbColumn) : ∃ b, A.operatorEq B = .ok b := by
  rw [Matrix.operatorEq_eq, if_pos ⟨h1, h2⟩]
  rcases Matrix.eq_loops_total A B A.nbColumn.toNat A.nbRow.toNat with h | h
  · exact ⟨true, by show throwSpec _ (forLoop _ _ _ >>= _) = _; rw [h]; rfl⟩
  · exact ⟨false, by show throwSpec _ (forLoop _ _ _ >>= _) = _; rw [h]; rfl⟩

/-- On matrices of the same size with the same cells `operator==` returns `true`. -/
theorem Matrix.operatorEq_same (A B : Matrix α) (h1 : A.nbRow = B.nbRow)
    (h2 : A.nbColumn = B.nbColumn)
    (h : ∀ i j : Int, 0 ≤ i → i < A.nbRow → 0 ≤ j → j < A.nbColumn →
      A.array i j = B.array i j) : A.operatorEq B = .ok true := by
  rw [Matrix.operatorEq_eq, if_pos ⟨h1, h2⟩]
  show throwSpec _ (forLoop _ _ _ >>= _) = _
  rw [Matrix.eq_loops_same A B A.nbColumn.toNat A.nbRow.toNat
    (fun i j hi hj => h i j (by omega) (by omega) (by omega) (by omega))]
  rfl

/-- On matrices of different sizes `operator==` throws. -/
theorem Matrix.operatorEq_error (A B : Matrix α)
    (h : ¬A.sameSize B) : A.operatorEq B = .error .MatrixException := by
  rw [Matrix.operatorEq_eq, if_neg h]
  rfl

end CompareLemmas

end reactphysics3d

namespace reactphysics3d

/-! ## Facts that hold in every arithmetic -/

section GenericLemmas

variable {α : Type} [Zero α] [One α] [Add α] [Sub α] [Mul α] [Neg α] [DecidableEq α]

/-- The determinant `getDeterminant` computes for a 1 x 1 matrix is its entry. -/
theorem Matrix.getDeterminant_one_by_one (uninit : Int → Int → α) (M : Matrix α)
    (h1 : M.nbRow = 1) (h2 : M.nbColumn = 1) :
    M.getDeterminant uninit = .ok (M.array 0 0) := by
  unfold Matrix.getDeterminant
  rw [Matrix.getDeterminantFuel_succ, if_pos (by omega), if_pos h1,
    Matrix.getValue_ok M 0 0 (le_refl 0) (by omega) (le_refl 0) (by omega)]
  rfl

/-- The determinant `getDeterminant` computes for a 2 x 2 matrix, with the operations of
the arithmetic in the order of the code. -/
theorem Matrix.getDeterminant_two_by_two (uninit : Int → Int → α) (M : Matrix α)
    (h1 : M.nbRow = 2) (h2 : M.nbColumn = 2) :
    M.getDeterminant uninit =
      .ok (M.array 0 0 * M.array 1 1 - M.array 1 0 * M.array 0 1) := by
  unfold Matrix.getDeterminant
  rw [Matrix.getDeterminantFuel_succ, if_pos (by omega), if_neg (by omega), if_pos h1,
    Matrix.getValue_ok M 0 0 (le_refl 0) (by omega) (le_refl 0) (by omega),
    Matrix.getValue_ok M 1 1 (by omega) (by omega) (by omega) (by omega),
    Matrix.getValue_ok M 1 0 (by omega) (by omega) (by omega) (by omega),
    Matrix.getValue_ok M 0 1 (by omega) (by omega) (by omega) (by omega)]
  rfl

variable [Div α]

/-- `getInverse` on a matrix that is not square throws `MatrixException`. -/
theorem Matrix.getInverse_not_square (uninit : Int → Int → α) (M : Matrix α)
    (h : M.nbRow ≠ M.nbColumn) : M.getInverse uninit = .error .MatrixException := by
  unfold Matrix.getInverse
  rw [if_neg h]
  rfl

/-- `getInverse` on a matrix for which `getDeterminant` returns zero throws
`MatrixException`. -/
theorem Matrix.getInverse_zero_determinant (uninit : Int → Int → α) (M : Matrix α)
    (hd : M.getDeterminant uninit = .ok 0) :
    M.getInverse uninit = .error .MatrixException := by
  by_cases h : M.nbRow = M.nbColumn
  · unfold Matrix.getInverse
    rw [if_pos h, hd]
    show throwSpec _ (if (0 : α) ≠ 0 then _ else _) = _
    rw [if_neg (by simp)]
    rfl
  · exact Matrix.getInverse_not_square uninit M h

/-- `getInverse` returns a matrix on a square matrix of dimension at least 2 for which
`getDeterminant` returns a value `d` other than zero, whatever the arithmetic: the matrix of
the signed values `D` that `getDeterminant` returns for the cofactor matrices, transposed and
multiplied by `1 / d`. -/
theorem Matrix.getInverse_ok_of (uninit : Int → Int → α) (M : Matrix α) (n : Nat)
    (h1 : M.nbRow = (n : Int) + 2) (h2 : M.nbColumn = (n : Int) + 2) (d : α)
    (D : Int → Int → α) (hd : M.getDeterminant uninit = .ok d) (hd0 : d ≠ 0)
    (hD : ∀ i j : Nat, (i : Int) < M.nbRow → (j : Int) < M.nbColumn →
      (M.minor uninit i j).getDeterminant uninit = .ok (D i j)) :
    M.getInverse uninit =
      .ok ((Matrix.mk M.nbRow M.nbColumn uninit).filled M.nbRow M.nbColumn
        (fun r s => (if (s + r) % 2 = 0 then 1 else -1) * D s r * (1 / d))) := by
  unfold Matrix.getInverse
  rw [if_pos (by omega), hd]
  show throwSpec _ (if d ≠ 0 then _ else _) = _
  rw [if_pos hd0, Matrix.ctor_ok uninit _ _ (by omega) (by omega)]
  have hl := forLoop_fill (fun i j (t : Matrix α) => do
      let k : α := if (i + j) % 2 = 0 then 1 else -1
      let cofactor ← M.getCofactor uninit i j
      let d ← cofactor.getDeterminant uninit
      t.setValue i j (k * d))
    (fun i j => (if (i + j) % 2 = 0 then 1 else -1) * D i j) M.nbRow.toNat M.nbColumn.toNat
    ((Matrix.mk M.nbRow M.nbColumn uninit).filled M.nbRow M.nbColumn (fun _ _ => 0))
    (fun i j t hi hj e1 e2 => by
      beta_reduce
      rw [Matrix.getCofactor_ok uninit M i j (by omega) (by omega) (by omega) (by omega)
        (by omega) (by omega)]
      show ((M.minor uninit i j).getDeterminant uninit >>= _) = _
      rw [hD i j (by omega) (by omega)]
      exact Matrix.setValue_ok t i j _ (by omega)
        (by rw [e1]; show (i : Int) < M.nbRow; omega) (by omega)
        (by rw [e2]; show (j : Int) < M.nbColumn; omega)) M.nbRow.toNat (le_refl _)
  rw [Int.toNat_of_nonneg (by omega), Int.toNat_of_nonneg (by omega)] at hl
  show throwSpec _ (forLoop _ _ _ >>= _) = _
  rw [hl]
  show throwSpec _ (Matrix.getTranspose uninit _ >>= _) = _
  rw [Matrix.getTranspose_ok uninit _ (by show 0 < M.nbRow; omega)
    (by show 0 < M.nbColumn; omega)]
  show throwSpec _ (Matrix.operatorMulScalar uninit _ _) = _
  rw [Matrix.operatorMulScalar_ok uninit _ _ (by show 0 < M.nbColumn; omega)
    (by show 0 < M.nbRow; omega)]
  show Except.ok _ = Except.ok _
  congr 1
  refine Matrix.ext_array (by show M.nbColumn = M.nbRow; omega)
    (by show M.nbRow = M.nbColumn; omega) ?_
  intro r s
  simp only [Matrix.filled_array, Matrix.filled_nbRow, Matrix.filled_nbColumn]
  split_ifs <;> first | rfl | (exfalso; omega)

end GenericLemmas

end reactphysics3d

namespace reactphysics3d

/-! ## The inverse -/

section InverseLemmas

variable {α : Type} [Field α] [DecidableEq α]

/-- The inverse computed by `getInverse` on a square matrix of dimension at least 2 with a
determinant `d` other than zero, in closed form. -/
theorem Matrix.getInverse_ok (uninit : Int → Int → α) (M : Matrix α) (n : Nat)
    (h1 : M.nbRow = (n : Int) + 2) (h2 : M.nbColumn = (n : Int) + 2) (d : α)
    (hd : M.getDeterminant uninit = .ok d) (hd0 : d ≠ 0) :
    M.getInverse uninit =
      .ok ((Matrix.mk M.nbRow M.nbColumn uninit).filled M.nbRow M.nbColumn
        (fun r s => M.signedMinor uninit (n + 1) s r * (1 / d))) := by
  exact Matrix.getInverse_ok_of uninit M n h1 h2 d
    (fun i j => Matrix.det ((M.minor uninit i j).toSquare (n + 1))) hd hd0
    (fun i j hi hj => Matrix.getDeterminant_eq_det uninit (M.minor uninit i j) (n + 1)
      (by omega) (by show M.nbRow - 1 = _; push_cast; omega)
      (by show M.nbColumn - 1 = _; push_cast; omega))

omit [DecidableEq α] in
/-- The sign used by `getInverse` is the sign of the cofactor expansion. -/
theorem sign_eq_neg_one_pow (a b : Nat) :
    (if (((a : Nat) : Int) + ((b : Nat) : Int)) % 2 = 0 then (1 : α) else -1) =
      (-1) ^ (a + b) := by
  rcases Nat.even_or_odd (a + b) with h | h
  · rw [h.neg_one_pow, if_pos (by have := h.two_dvd; omega)]
  · rw [h.neg_one_pow, if_neg (by have := Nat.odd_iff.mp h; omega)]

omit [DecidableEq α] in
/-- The matrix of `getInverse` is the adjugate divided by the determinant. -/
theorem Matrix.toSquare_inverse (uninit : Int → Int → α) (M : Matrix α) (n : Nat)
    (h1 : M.nbRow = (n : Int) + 2) (h2 : M.nbColumn = (n : Int) + 2) (d : α) :
    ((Matrix.mk M.nbRow M.nbColumn uninit).filled M.nbRow M.nbColumn
        (fun r s => M.signedMinor uninit (n + 1) s r * (1 / d))).toSquare (n + 2) =
      d⁻¹ • Matrix.adjugate (M.toSquare (n + 2)) := by
  ext a b
  have ha := a.isLt
  have hb := b.isLt
  rw [Matrix.toSquare_apply, Matrix.filled_array, if_pos (by omega), Matrix.smul_apply,
    Matrix.adjugate_fin_succ_eq_det_submatrix, Matrix.signedMinor, sign_eq_neg_one_pow,
    Matrix.toSquare_minor uninit M (n + 1) (by push_cast; omega) (by push_cast; omega) b a]
  simp only [smul_eq_mul, one_div]
  ring

end InverseLemmas

end reactphysics3d

namespace reactphysics3d

/-! ## Assignment, totality of the determinant, and the inverse of a product -/

section MoreLemmas

variable {α : Type}

/-- The assignment from another matrix of the same size, in closed form. -/
theorem Matrix.operatorAssign_other (A B : Matrix α) (h1 : A.nbRow = B.nbRow)
    (h2 : A.nbColumn = B.nbColumn) :
    A.operatorAssign (.other B) = .ok (A.filled A.nbRow A.nbColumn B.array) := by
  unfold Matrix.operatorAssign
  show throwSpec _ (if A.sameSize B then _ else _) = _
  rw [if_pos ⟨h1, h2⟩]
  have hl := forLoop_fill (fun i j (t : Matrix α) => do
      let x ← B.getValue i j
      t.setValue i j x) B.array A.nbRow.toNat A.nbColumn.toNat A
    (fun i j t hi hj e1 e2 => by
      beta_reduce
      rw [Matrix.getValue_ok B i j (by omega) (by omega) (by omega) (by omega)]
      exact Matrix.setValue_ok t i j _ (by omega) (by omega) (by omega) (by omega))
    A.nbRow.toNat (le_refl _)
  show throwSpec _ (forLoop _ _ _) = _
  rw [hl]
  show Except.ok _ = Except.ok _
  congr 1
  refine Matrix.ext_array (by rfl) (by rfl) ?_
  intro r s
  simp only [Matrix.filled_array]
  split_ifs <;> first | rfl | (exfalso; omega)

/-- The cell of a matrix read through its mathematical matrix. -/
theorem Matrix.array_eq_toSquare (P : Matrix α) (n : Nat) (i j : Int) (hi : 0 ≤ i)
    (hi2 : i < n) (hj : 0 ≤ j) (hj2 : j < n) :
    P.array i j = P.toSquare n ⟨i.toNat, by omega⟩ ⟨j.toNat, by omega⟩ := by
  rw [Matrix.toSquare_apply]
  congr 1 <;> simp only [] <;> omega

variable [CommRing α] [DecidableEq α]

/-- On a square matrix `getDeterminant` returns a value. -/
theorem Matrix.getDeterminant_total (uninit : Int → Int → α) (M : Matrix α)
    (h : M.nbRow = M.nbColumn) : ∃ d, M.getDeterminant uninit = .ok d := by
  by_cases hpos : 0 < M.nbRow
  · exact ⟨_, Matrix.getDeterminant_eq_det uninit M M.nbRow.toNat (by omega) (by omega)
      (by omega)⟩
  · refine ⟨0, ?_⟩
    unfold Matrix.getDeterminant
    rw [Matrix.getDeterminantFuel_succ, if_pos h, if_neg (by omega), if_neg (by omega)]
    have e : M.nbColumn.toNat = 0 := by omega
    rw [e]
    rfl

/-- On a matrix that is not square `getDeterminant` throws. -/
theorem Matrix.getDeterminant_error (uninit : Int → Int → α) (M : Matrix α)
    (h : M.nbRow ≠ M.nbColumn) : M.getDeterminant uninit = .error .MatrixException := by
  unfold Matrix.getDeterminant
  rw [Matrix.getDeterminantFuel_succ, if_neg h]
  rfl

omit [DecidableEq α] in
/-- The cells of a matrix whose mathematical matrix is the identity. -/
theorem Matrix.array_of_toSquare_one (P : Matrix α) (n : Nat)
    (h : P.toSquare n = 1) (i j : Int) (hi : 0 ≤ i) (hi2 : i < n) (hj : 0 ≤ j) (hj2 : j < n) :
    P.array i j = if i = j then 1 else 0 := by
  rw [Matrix.array_eq_toSquare P n i j hi hi2 hj hj2, h, Matrix.one_apply]
  by_cases hij : i = j
  · rw [if_pos hij, if_pos (by subst hij; rfl)]
  · rw [if_neg hij, if_neg (by rw [Fin.ext_iff]; simp only []; omega)]

end MoreLemmas

end reactphysics3d

namespace reactphysics3d

/-! ## The claims about the matrix utility -/

section MatrixClaims

variable {α : Type}

/-- The sum of two matrices of the same size, in closed form. -/
theorem Matrix.operatorAdd_ok [CommRing α] (uninit : Int → Int → α) (A B : Matrix α)
    (hm : 0 < A.nbRow) (hn : 0 < A.nbColumn) (h : A.sameSize B) :
    A.operatorAdd uninit B =
      .ok ((Matrix.mk A.nbRow A.nbColumn uninit).filled A.nbRow A.nbColumn
        (fun r s => A.array r s + B.array r s)) := by
  unfold Matrix.operatorAdd
  rw [if_pos h]
  exact congrArg (throwSpec .MatrixException)
    (Matrix.combine_ok uninit (fun x y => x + y) A B hm hn h.1 h.2)

/-- The difference of two matrices of the same size, in closed form. -/
theorem Matrix.operatorSub_ok [CommRing α] (uninit : Int → Int → α) (A B : Matrix α)
    (hm : 0 < A.nbRow) (hn : 0 < A.nbColumn) (h : A.sameSize B) :
    A.operatorSub uninit B =
      .ok ((Matrix.mk A.nbRow A.nbColumn uninit).filled A.nbRow A.nbColumn
        (fun r s => A.array r s - B.array r s)) := by
  unfold Matrix.operatorSub
  rw [if_pos h]
  exact congrArg (throwSpec .MatrixException)
    (Matrix.combine_ok uninit (fun x y => x - y) A B hm hn h.1 h.2)

/-- C3: for all integers `nbRow` and `nbColumn` the constructor throws
`std::invalid_argument` exactly when one of them is not positive; otherwise it returns a
matrix with these numbers of rows and columns whose every entry is 0, whatever the fresh
storage held. -/
theorem Matrix.ctor_fails_iff_not_positive [CommRing α] (uninit : Int → Int → α)
    (nbRow nbColumn : Int) :
    (Matrix.ctor uninit nbRow nbColumn = .error .invalid_argument ↔
        (nbRow ≤ 0 ∨ nbColumn ≤ 0)) ∧
      (¬(nbRow ≤ 0 ∨ nbColumn ≤ 0) →
        ∃ M, Matrix.ctor uninit nbRow nbColumn = .ok M ∧ M.nbRow = nbRow ∧
          M.nbColumn = nbColumn ∧
          ∀ i j, 0 ≤ i → i < nbRow → 0 ≤ j → j < nbColumn → M.array i j = 0) := by
  by_cases h : nbRow ≤ 0 ∨ nbColumn ≤ 0
  · exact ⟨⟨fun _ => h, fun _ => Matrix.ctor_error uninit _ _ h⟩, fun hn => absurd h hn⟩
  · have hok := Matrix.ctor_ok uninit nbRow nbColumn (by omega) (by omega)
    refine ⟨⟨fun he => ?_, fun hn => absurd hn h⟩, fun _ => ⟨_, hok, rfl, rfl, ?_⟩⟩
    · rw [hok] at he; cases he
    · intro i j hi hi2 hj hj2
      rw [Matrix.filled_array, if_pos ⟨hi, hi2, hj, hj2⟩]

/-- C3, at concrete sizes: `Matrix(2, 3)` is the zero matrix with 2 rows and 3 columns. -/
theorem Matrix.ctor_fails_iff_not_positive_witness :
    ∃ M, Matrix.ctor (fun _ _ => (7 : Int)) 2 3 = .ok M ∧ M.nbRow = 2 ∧ M.nbColumn = 3 ∧
      ∀ i j, 0 ≤ i → i < 2 → 0 ≤ j → j < 3 → M.array i j = 0 :=
  (Matrix.ctor_fails_iff_not_positive (fun _ _ => (7 : Int)) 2 3).2 (by decide)

/-- C4: for a matrix `A` (of positive size, as every constructed matrix) and a matrix `B`,
each of `A + B`, `A - B`, `A = B` and `A == B` throws `MatrixException` exactly when the
numbers of rows or of columns of `A` and `B` differ, and returns a value otherwise; so
`A == B` on matrices of different sizes is an error and not `false`. -/
theorem Matrix.binary_operators_fail_iff_sizes_differ [CommRing α] [DecidableEq α]
    (uninit : Int → Int → α) (A B : Matrix α) (hm : 0 < A.nbRow) (hn : 0 < A.nbColumn) :
    ((A.operatorAdd uninit B = .error .MatrixException ↔ ¬A.sameSize B) ∧
        (A.sameSize B → ∃ R, A.operatorAdd uninit B = .ok R)) ∧
      ((A.operatorSub uninit B = .error .MatrixException ↔ ¬A.sameSize B) ∧
        (A.sameSize B → ∃ R, A.operatorSub uninit B = .ok R)) ∧
      ((A.operatorAssign (.other B) = .error .MatrixException ↔ ¬A.sameSize B) ∧
        (A.sameSize B → ∃ R, A.operatorAssign (.other B) = .ok R)) ∧
      ((A.operatorEq B = .error .MatrixException ↔ ¬A.sameSize B) ∧
        (A.sameSize B → ∃ b, A.operatorEq B = .ok b)) := by
  by_cases h : A.sameSize B
  · have h1 := Matrix.operatorAdd_ok uninit A B hm hn h
    have h2 := Matrix.operatorSub_ok uninit A B hm hn h
    have h3 := Matrix.operatorAssign_other A B h.1 h.2
    obtain ⟨b, h4⟩ := Matrix.operatorEq_total A B h.1 h.2
    refine ⟨⟨⟨fun he => ?_, fun hn => absurd h hn⟩, fun _ => ⟨_, h1⟩⟩,
      ⟨⟨fun he => ?_, fun hn => absurd h hn⟩, fun _ => ⟨_, h2⟩⟩,
      ⟨⟨fun he => ?_, fun hn => absurd h hn⟩, fun _ => ⟨_, h3⟩⟩,
      ⟨⟨fun he => ?_, fun hn => absurd h hn⟩, fun _ => ⟨_, h4⟩⟩⟩
    · rw [h1] at he; cases he
    · rw [h2] at he; cases he
    · rw [h3] at he; cases he
    · rw [h4] at he; cases he
  · have h1 : A.operatorAdd uninit B = .error .MatrixException := by
      unfold Matrix.operatorAdd; rw [if_neg h]; rfl
    have h2 : A.operatorSub uninit B = .error .MatrixException := by
      unfold Matrix.operatorSub; rw [if_neg h]; rfl
    have h3 : A.operatorAssign (.other B) = .error .MatrixException := by
      unfold Matrix.operatorAssign
      show throwSpec _ (if A.sameSize B then _ else _) = _
      rw [if_neg h]; rfl
    have h4 := Matrix.operatorEq_error A B h
    exact ⟨⟨⟨fun _ => h, fun _ => h1⟩, fun hs => absurd hs h⟩,
      ⟨⟨fun _ => h, fun _ => h2⟩, fun hs => absurd hs h⟩,
      ⟨⟨fun _ => h, fun _ => h3⟩, fun hs => absurd hs h⟩,
      ⟨⟨fun _ => h, fun _ => h4⟩, fun hs => absurd hs h⟩⟩

/-- C4, at concrete matrices: comparing a 2 x 2 with a 2 x 3 matrix throws, for each of the
four operators. -/
theorem Matrix.binary_operators_fail_iff_sizes_differ_witness :
    Matrix.operatorAdd (fun _ _ => (7 : Int)) ⟨2, 2, fun i j => i + j⟩ ⟨2, 3, fun _ _ => 1⟩ =
        .error .MatrixException ∧
      Matrix.operatorSub (fun _ _ => (7 : Int)) ⟨2, 2, fun i j => i + j⟩ ⟨2, 3, fun _ _ => 1⟩ =
        .error .MatrixException ∧
      Matrix.operatorAssign (⟨2, 2, fun i j => i + j⟩ : Matrix Int)
        (.other ⟨2, 3, fun _ _ => 1⟩) = .error .MatrixException ∧
      Matrix.operatorEq (⟨2, 2, fun i j => i + j⟩ : Matrix Int) ⟨2, 3, fun _ _ => 1⟩ =
        .error .MatrixException :=
  have h := Matrix.binary_operators_fail_iff_sizes_differ (fun _ _ => (7 : Int))
    ⟨2, 2, fun i j => i + j⟩ ⟨2, 3, fun _ _ => 1⟩ (by decide) (by decide)
  ⟨h.1.1.mpr (by decide), h.2.1.1.mpr (by decide), h.2.2.1.1.mpr (by decide),
    h.2.2.2.1.mpr (by decide)⟩

/-- C9: for matrices `A` and `B` (of positive sizes, as every constructed matrix) the product
`A * B` throws `MatrixException` exactly when the number of columns of `A` differs from the
number of rows of `B`; otherwise it returns a matrix with the rows of `A` and the columns of
`B` whose entry `(i, j)` is the sum over `k` below the number of columns of `A` of
`A(i,k) * B(k,j)`. -/
theorem Matrix.operatorMul_spec [CommRing α] (uninit : Int → Int → α) (A B : Matrix α)
    (hm : 0 < A.nbRow) (hq : 0 < B.nbColumn) :
    (A.operatorMul uninit B = .error .MatrixException ↔ A.nbColumn ≠ B.nbRow) ∧
      (A.nbColumn = B.nbRow →
        ∃ P, A.operatorMul uninit B = .ok P ∧ P.nbRow = A.nbRow ∧ P.nbColumn = B.nbColumn ∧
          ∀ i j, 0 ≤ i → i < A.nbRow → 0 ≤ j → j < B.nbColumn →
            P.array i j = ∑ k ∈ Finset.range A.nbColumn.toNat, A.array i k * B.array k j) := by
  by_cases h : A.nbColumn = B.nbRow
  · have hok := Matrix.operatorMul_ok uninit A B hm hq h
    refine ⟨⟨fun he => ?_, fun hn => absurd h hn⟩, fun _ => ⟨_, hok, rfl, rfl, ?_⟩⟩
    · rw [hok] at he; cases he
    · intro i j hi hi2 hj hj2
      rw [Matrix.filled_array, if_pos ⟨hi, hi2, hj, hj2⟩]
  · exact ⟨⟨fun _ => h, fun _ => Matrix.operatorMul_error uninit A B h⟩, fun hs => absurd hs h⟩

/-- C9, at concrete matrices: the product of a 2 x 3 and a 3 x 2 matrix is a 2 x 2 matrix of
the sums of products. -/
theorem Matrix.operatorMul_spec_witness :
    ∃ P, Matrix.operatorMul (fun _ _ => (7 : Int)) ⟨2, 3, fun i j => i + j⟩
        ⟨3, 2, fun i j => i * j + 1⟩ = .ok P ∧ P.nbRow = 2 ∧ P.nbColumn = 2 ∧
      ∀ i j, 0 ≤ i → i < 2 → 0 ≤ j → j < 2 →
        P.array i j = ∑ k ∈ Finset.range (3 : Int).toNat,
          (fun i j : Int => i + j) i k * (fun i j : Int => i * j + 1) k j :=
  (Matrix.operatorMul_spec (fun _ _ => (7 : Int)) ⟨2, 3, fun i j => i + j⟩
    ⟨3, 2, fun i j => i * j + 1⟩ (by decide) (by decide)).2 (by decide)

/-- C8: for every matrix, `getDeterminant` throws `MatrixException` exactly when the matrix
is not square; on every square matrix it returns a value, so no exception of the cofactor
matrices or the accessors leaves it and the recursion ends. -/
theorem Matrix.getDeterminant_fails_iff_not_square [CommRing α] [DecidableEq α]
    (uninit : Int → Int → α) (M : Matrix α) :
    (M.getDeterminant uninit = .error .MatrixException ↔ M.nbRow ≠ M.nbColumn) ∧
      ((∃ d, M.getDeterminant uninit = .ok d) ↔ M.nbRow = M.nbColumn) := by
  by_cases h : M.nbRow = M.nbColumn
  · obtain ⟨d, hd⟩ := Matrix.getDeterminant_total uninit M h
    refine ⟨⟨fun he => ?_, fun hn => absurd h hn⟩, ⟨fun _ => h, fun _ => ⟨d, hd⟩⟩⟩
    rw [hd] at he; cases he
  · have he := Matrix.getDeterminant_error uninit M h
    refine ⟨⟨fun _ => h, fun _ => he⟩, ⟨fun hd => ?_, fun hs => absurd hs h⟩⟩
    obtain ⟨d, hd⟩ := hd
    rw [he] at hd; cases hd

/-- C7: on a square matrix of dimension `n ≥ 1` over a commutative ring `getDeterminant`
returns the Leibniz sum over the permutations `σ` of the signed products of the entries
`M(σ i, i)`, in the closed forms of dimensions 1 and 2 and in the recursive expansion along
the first row alike. -/
theorem Matrix.getDeterminant_eq_leibniz [CommRing α] [DecidableEq α]
    (uninit : Int → Int → α) (M : Matrix α) (n : Nat) (hn : 1 ≤ n) (h1 : M.nbRow = n)
    (h2 : M.nbColumn = n) :
    M.getDeterminant uninit =
      .ok (∑ σ : Equiv.Perm (Fin n), (((Equiv.Perm.sign σ : ℤˣ) : ℤ) : α) *
        ∏ i : Fin n, M.array (((σ i : Fin n) : Nat) : Int) (((i : Fin n) : Nat) : Int)) := by
  rw [Matrix.getDeterminant_eq_det uninit M n hn h1 h2, Matrix.det_apply']
  rfl

/-- C7, at a concrete matrix: the determinant of a 3 x 3 integer matrix computed by the
expansion along the first row is the Leibniz sum. -/
theorem Matrix.getDeterminant_eq_leibniz_witness :
    Matrix.getDeterminant (fun _ _ => (7 : Int))
        ⟨3, 3, fun i j => if i = j then 2 else i + 2 * j + 1⟩ =
      .ok (∑ σ : Equiv.Perm (Fin 3), (((Equiv.Perm.sign σ : ℤˣ) : ℤ) : Int) *
        ∏ i : Fin 3, (fun i j : Int => if i = j then 2 else i + 2 * j + 1)
          (((σ i : Fin 3) : Nat) : Int) (((i : Fin 3) : Nat) : Int)) :=
  Matrix.getDeterminant_eq_leibniz (fun _ _ => (7 : Int))
    ⟨3, 3, fun i j => if i = j then 2 else i + 2 * j + 1⟩ 3 (by decide) (by decide) (by decide)

end MatrixClaims

end reactphysics3d

namespace reactphysics3d

/-! ## The claims about the inverse -/

section InverseClaims

variable {α : Type} [Field α] [DecidableEq α]

/-- On a 1 x 1 matrix with an entry other than zero `getInverse` asks for the cofactor matrix
of the single cell; its constructor throws `std::invalid_argument`, which
`throw(MatrixException)` does not let pass. -/
theorem Matrix.getInverse_one_by_one (uninit : Int → Int → α) (M : Matrix α)
    (h1 : M.nbRow = 1) (h2 : M.nbColumn = 1) (hx : M.array 0 0 ≠ 0) :
    M.getInverse uninit = .error .terminate := by
  have hd := Matrix.getDeterminant_eq_det uninit M 1 Nat.one_pos (by rw [h1]; rfl)
    (by rw [h2]; rfl)
  rw [Matrix.det_fin_one, Matrix.toSquare_apply] at hd
  simp only [Fin.val_zero, Nat.cast_zero] at hd
  unfold Matrix.getInverse
  rw [if_pos (by omega), hd]
  show throwSpec _ (if M.array 0 0 ≠ 0 then _ else _) = _
  rw [if_pos hx, Matrix.ctor_ok uninit _ _ (by omega) (by omega)]
  have e1 : M.nbRow.toNat = 1 := by omega
  have e2 : M.nbColumn.toNat = 1 := by omega
  rw [e1, e2]
  simp only [forLoop_succ, forLoop_zero]
  rw [Matrix.getCofactor_thin uninit M _ _ (Or.inl (by omega))]
  rfl

omit [DecidableEq α] in
/-- The product of a square matrix with the matrix `getInverse` computes is the identity. -/
theorem Matrix.toSquare_mul_inverse (A : SquareMatrix n α) (h : Matrix.det A ≠ 0) :
    A * ((Matrix.det A)⁻¹ • Matrix.adjugate A) = 1 ∧
      ((Matrix.det A)⁻¹ • Matrix.adjugate A) * A = 1 := by
  constructor
  · rw [Matrix.mul_smul, Matrix.mul_adjugate, smul_smul, inv_mul_cancel₀ h, one_smul]
  · rw [Matrix.smul_mul, Matrix.adjugate_mul, smul_smul, inv_mul_cancel₀ h, one_smul]

/-- In exact arithmetic, over a field, `getInverse` throws `MatrixException` on every square
matrix of dimension `n ≥ 1` whose determinant is zero: there `getDeterminant` returns the
determinant. -/
theorem Matrix.getInverse_rejects_exact_zero (uninit : Int → Int → α) (M : Matrix α) (n : Nat)
    (hn : 1 ≤ n) (h1 : M.nbRow = n) (h2 : M.nbColumn = n)
    (hdet : Matrix.det (M.toSquare n) = 0) :
    M.getInverse uninit = .error .MatrixException := by
  refine Matrix.getInverse_zero_determinant uninit M ?_
  rw [Matrix.getDeterminant_eq_det uninit M n hn h1 h2, hdet]

/-- C5: on a square matrix `M` of dimension `n ≥ 2` over a field whose determinant is not
zero, `getInverse` returns an `n x n` matrix `N`; the products `M * N` and `N * M` of the
code have 1 on the diagonal and 0 elsewhere, and `operator==` finds both equal to
`identityMatrix(n)`. -/
theorem Matrix.getInverse_is_inverse (uninit : Int → Int → α) (M : Matrix α) (n : Nat)
    (hn : 2 ≤ n) (h1 : M.nbRow = n) (h2 : M.nbColumn = n)
    (hdet : Matrix.det (M.toSquare n) ≠ 0) :
    ∃ N, M.getInverse uninit = .ok N ∧ N.nbRow = n ∧ N.nbColumn = n ∧
      ∃ P Q I, M.operatorMul uninit N = .ok P ∧ N.operatorMul uninit M = .ok Q ∧
        Matrix.identityMatrix uninit n = .ok I ∧
        P.operatorEq I = .ok true ∧ Q.operatorEq I = .ok true ∧
        ∀ i j : Int, 0 ≤ i → i < n → 0 ≤ j → j < n →
          P.array i j = (if i = j then 1 else 0) ∧ Q.array i j = (if i = j then 1 else 0) := by
  obtain ⟨m, rfl⟩ : ∃ m, n = m + 2 := ⟨n - 2, by omega⟩
  have hr : M.nbRow = (m : Int) + 2 := by rw [h1]; push_cast; rfl
  have hc : M.nbColumn = (m : Int) + 2 := by rw [h2]; push_cast; rfl
  have hd := Matrix.getDeterminant_eq_det uninit M (m + 2) (by omega) h1 h2
  have hinv := Matrix.getInverse_ok uninit M m hr hc _ hd hdet
  have hsq := Matrix.toSquare_inverse uninit M m hr hc (Matrix.det (M.toSquare (m + 2)))
  obtain ⟨hmul1, hmul2⟩ := Matrix.toSquare_mul_inverse (M.toSquare (m + 2)) hdet
  generalize hN : Matrix.filled _ _ _ _ = N at hinv hsq
  have hNr : N.nbRow = M.nbRow := by rw [← hN]; rfl
  have hNc : N.nbColumn = M.nbColumn := by rw [← hN]; rfl
  have hP := Matrix.operatorMul_ok uninit M N (by omega) (by omega) (by omega)
  have hQ := Matrix.operatorMul_ok uninit N M (by omega) (by omega) (by omega)
  have hI := Matrix.identityMatrix_ok uninit ((m + 2 : Nat) : Int) (by omega)
  have hPsq := Matrix.toSquare_mul uninit M N _ (m + 2) h1 h2 (by omega) hP hP
  have hQsq := Matrix.toSquare_mul uninit N M _ (m + 2) (by omega) (by omega) h2 hQ hQ
  rw [hsq, hmul1] at hPsq
  rw [hsq, hmul2] at hQsq
  have hPe := Matrix.array_of_toSquare_one _ (m + 2) hPsq
  have hQe := Matrix.array_of_toSquare_one _ (m + 2) hQsq
  refine ⟨N, hinv, by omega, by omega, _, _, _, hP, hQ, hI, ?_, ?_, ?_⟩
  · refine Matrix.operatorEq_same _ _ (show M.nbRow = ((m + 2 : Nat) : Int) by omega)
      (show N.nbColumn = ((m + 2 : Nat) : Int) by omega) ?_
    intro i j hi hi2 hj hj2
    have hi3 : i < M.nbRow := hi2
    have hj3 : j < N.nbColumn := hj2
    rw [hPe i j hi (by omega) hj (by omega), Matrix.filled_array,
      if_pos (show 0 ≤ i ∧ i < ((m + 2 : Nat) : Int) ∧ 0 ≤ j ∧ j < ((m + 2 : Nat) : Int) by
        omega)]
  · refine Matrix.operatorEq_same _ _ (show N.nbRow = ((m + 2 : Nat) : Int) by omega)
      (show M.nbColumn = ((m + 2 : Nat) : Int) by omega) ?_
    intro i j hi hi2 hj hj2
    have hi3 : i < N.nbRow := hi2
    have hj3 : j < M.nbColumn := hj2
    rw [hQe i j hi (by omega) hj (by omega), Matrix.filled_array,
      if_pos (show 0 ≤ i ∧ i < ((m + 2 : Nat) : Int) ∧ 0 ≤ j ∧ j < ((m + 2 : Nat) : Int) by
        omega)]
  · intro i j hi hi2 hj hj2
    exact ⟨hPe i j hi hi2 hj hj2, hQe i j hi hi2 hj hj2⟩

/-- C5, at a concrete matrix: the rational matrix with 2 on the diagonal and 1 elsewhere, of
determinant 3, has an inverse. -/
theorem Matrix.getInverse_is_inverse_witness :
    ∃ N, Matrix.getInverse (fun _ _ => (7 : ℚ)) ⟨2, 2, fun i j => if i = j then 2 else 1⟩ =
        .ok N ∧ N.nbRow = (2 : Nat) ∧ N.nbColumn = (2 : Nat) ∧
      ∃ P Q I,
        Matrix.operatorMul (fun _ _ => (7 : ℚ)) ⟨2, 2, fun i j => if i = j then 2 else 1⟩ N =
          .ok P ∧
        Matrix.operatorMul (fun _ _ => (7 : ℚ)) N ⟨2, 2, fun i j => if i = j then 2 else 1⟩ =
          .ok Q ∧
        Matrix.identityMatrix (fun _ _ => (7 : ℚ)) (2 : Nat) = .ok I ∧
        P.operatorEq I = .ok true ∧ Q.operatorEq I = .ok true ∧
        ∀ i j : Int, 0 ≤ i → i < (2 : Nat) → 0 ≤ j → j < (2 : Nat) →
          P.array i j = (if i = j then 1 else 0) ∧ Q.array i j = (if i = j then 1 else 0) :=
  Matrix.getInverse_is_inverse (fun _ _ => (7 : ℚ)) ⟨2, 2, fun i j => if i = j then 2 else 1⟩ 2
    (by decide) rfl rfl (by rw [Matrix.det_fin_two]; norm_num [Matrix.toSquare])

/-- C6: on the 1 x 1 rational matrix with the entry 2, whose inverse is the 1 x 1 matrix with
the entry 1/2, `getInverse` returns no matrix: the cofactor matrix it asks for has no rows,
its constructor throws `std::invalid_argument`, and the program is terminated. -/
theorem Matrix.getInverse_one_by_one_terminates :
    Matrix.getInverse (fun _ _ => (7 : ℚ)) ⟨1, 1, fun _ _ => 2⟩ = .error .terminate ∧
      ∀ N, Matrix.getInverse (fun _ _ => (7 : ℚ)) ⟨1, 1, fun _ _ => 2⟩ ≠ .ok N :=
  have h := Matrix.getInverse_one_by_one (fun _ _ => (7 : ℚ)) ⟨1, 1, fun _ _ => 2⟩ rfl rfl
    (by norm_num)
  ⟨h, fun N hN => by rw [h] at hN; cases hN⟩

end InverseClaims

end reactphysics3d

namespace reactphysics3d

/-! ## The constraint registry -/

section RegistryLemmas

/-- `std::find` on a vector that holds `c`: the position found is that of the first
occurrence. -/
theorem find_first (l1 l2 : List Ptr) (c : Ptr) (h : c ∉ l1) :
    find (l1 ++ c :: l2) c = l1.length := by
  unfold find
  rw [List.indexOf_append_of_not_mem h, List.indexOf_cons_self, Nat.add_zero]

/-- `std::find` on a vector that does not hold `c` returns the end. -/
theorem find_absent (l : List Ptr) (c : Ptr) (h : c ∉ l) : find l c = l.length := by
  unfold find
  exact List.indexOf_eq_length.mpr h

/-- Removing a constraint that is not null and not registered is undefined, with and without
assertions. -/
theorem DynamicsWorld.removeConstraint_absent (NDEBUG : Bool) (heap : Heap)
    (w : DynamicsWorld) (c : Ptr) (h0 : c ≠ 0) (h : c ∉ w.constraints) :
    w.removeConstraint NDEBUG heap c = .undefined := by
  unfold DynamicsWorld.removeConstraint
  rw [if_neg (by simp [h0])]
  simp only [find_absent w.constraints c h]
  rw [List.getElem?_eq_none (le_refl _)]

end RegistryLemmas

/-- C10: in a world whose registry holds the constraint `c`, not null and not deleted
before, `removeConstraint(c)` returns, with and without assertions; it frees `c` and nothing
else, and the registry is the former one without the first occurrence of `c`: the
constraints before it and after it are kept in their order, the length is one less, and no
other member of the world changes. -/
theorem DynamicsWorld.removeConstraint_registered (NDEBUG : Bool) (heap : Heap)
    (w : DynamicsWorld) (c : Ptr) (h0 : c ≠ 0) (hlive : c ∉ heap.freed)
    (h : c ∈ w.constraints) :
    ∃ l1 l2 : List Ptr, w.constraints = l1 ++ c :: l2 ∧ c ∉ l1 ∧
      (l1 ++ l2).length + 1 = w.constraints.length ∧
      l1 ++ l2 = w.constraints.erase c ∧
      w.removeConstraint NDEBUG heap c =
        .done ({ freed := c :: heap.freed }, { w with constraints := l1 ++ l2 }) := by
  obtain ⟨l1, l2, hsplit, hnot⟩ := List.eq_append_cons_of_mem h
  refine ⟨l1, l2, hsplit, hnot, ?_, ?_, ?_⟩
  · rw [hsplit]; simp only [List.length_append, List.length_cons]; omega
  · rw [hsplit, List.erase_append_right _ hnot, List.erase_cons_head]
  · unfold DynamicsWorld.removeConstraint
    rw [if_neg (by simp [h0])]
    have hf : find w.constraints c = l1.length := by rw [hsplit]; exact find_first l1 l2 c hnot
    have hg : w.constraints[l1.length]? = some c := by
      rw [hsplit, List.getElem?_append_right (le_refl _)]
      simp
    have he : w.constraints.eraseIdx l1.length = l1 ++ l2 := by
      rw [hsplit, List.eraseIdx_append_of_length_le (le_refl _)]
      simp
    simp only [hf, hg, he]
    rw [if_neg (by simp)]
    unfold Heap.delete
    rw [if_neg h0, if_neg hlive]

/-- C10, at a concrete world: from the registry `[4, 7, 5, 7]` the call `removeConstraint(7)`
frees 7 and leaves `[4, 5, 7]`. -/
theorem DynamicsWorld.removeConstraint_registered_witness :
    ∃ l1 l2 : List Ptr, [4, 7, 5, 7] = l1 ++ 7 :: l2 ∧ 7 ∉ l1 ∧
      (l1 ++ l2).length + 1 = [4, 7, 5, 7].length ∧
      l1 ++ l2 = [4, 7, 5, 7].erase 7 ∧
      DynamicsWorld.removeConstraint false { freed := [9] }
          { isDeactivationActive := true, rigidBodies := [1, 2], constraints := [4, 7, 5, 7],
            gravity := ⟨0, -10, 0⟩, isGravityOn := true } 7 =
        .done ({ freed := [7, 9] },
          { isDeactivationActive := true, rigidBodies := [1, 2], constraints := l1 ++ l2,
            gravity := ⟨0, -10, 0⟩, isGravityOn := true }) :=
  DynamicsWorld.removeConstraint_registered false { freed := [9] }
    { isDeactivationActive := true, rigidBodies := [1, 2], constraints := [4, 7, 5, 7],
      gravity := ⟨0, -10, 0⟩, isGravityOn := true } 7 (by decide) (by decide) (by decide)

/-- C1: on the registry `[1]`, `removeConstraint(2)` for the unregistered constraint 2 is
not rejected.  With assertions the second `assert` reads `*it` for `it` at the end of the
vector, without them `delete *it` does: both are undefined behaviour, no error is reported
and nothing keeps the registry as it was. -/
theorem DynamicsWorld.removeConstraint_unregistered_undefined :
    DynamicsWorld.removeConstraint false { freed := [] }
        { isDeactivationActive := true, rigidBodies := [], constraints := [1],
          gravity := ⟨0, -10, 0⟩, isGravityOn := true } 2 = .undefined ∧
      DynamicsWorld.removeConstraint true { freed := [] }
        { isDeactivationActive := true, rigidBodies := [], constraints := [1],
          gravity := ⟨0, -10, 0⟩, isGravityOn := true } 2 = .undefined := by
  constructor <;> decide

end reactphysics3d

namespace reactphysics3d

/-! ## Trace, cofactor, identity, transpose and assignment: the claims -/

section TraceLemmas

variable {α : Type} [CommRing α]

/-- One row of the loops of `getTrace`: every cell of the row is added. -/
theorem Matrix.trace_row_loop (M : Matrix α) (i : Int) (acc : α) :
    ∀ k : Nat, forLoop (fun j sum => pure (sum + M.array i j)) k acc =
      .ok (acc + ∑ j ∈ Finset.range k, M.array i j) := by
  intro k
  induction k with
  | zero => simp
  | succ k ih =>
    rw [forLoop_succ, ih, Finset.sum_range_succ, ← add_assoc]
    rfl

/-- The loops of `getTrace` add every cell of the matrix, on and off the diagonal. -/
theorem Matrix.getTrace_eq_sum_all (M : Matrix α) :
    M.getTrace = .ok (∑ i ∈ Finset.range M.nbRow.toNat,
      ∑ j ∈ Finset.range M.nbColumn.toNat, M.array i j) := by
  unfold Matrix.getTrace
  have h : ∀ k : Nat, forLoop (fun i sum =>
      forLoop (fun j sum => pure (sum + M.array i j)) M.nbColumn.toNat sum) k (0 : α) =
      .ok (∑ i ∈ Finset.range k, ∑ j ∈ Finset.range M.nbColumn.toNat, M.array i j) := by
    intro k
    induction k with
    | zero => simp
    | succ k ih =>
      rw [forLoop_succ, ih, Finset.sum_range_succ]
      exact Matrix.trace_row_loop M k _ _
  exact h _

/-- The identity matrix of a dimension that is not positive. -/
theorem Matrix.identityMatrix_error (uninit : Int → Int → α) (n : Int) (h : n ≤ 0) :
    Matrix.identityMatrix uninit n = .error .invalid_argument := by
  unfold Matrix.identityMatrix
  rw [if_neg (by omega)]
  rfl

end TraceLemmas

section StateLemmas

variable {α : Type}

/-- Code wrapped in `throw(allowed)` that returns a value returned it before the wrapping. -/
theorem throwSpec_eq_ok {β : Type} (allowed : Failure) (r : Result β) (v : β)
    (h : throwSpec allowed r = .ok v) : r = .ok v := by
  cases r with
  | ok w => exact h
  | error e =>
    cases e <;> simp only [throwSpec] at h <;> first | cases h | (split at h <;> cases h)

/-- A loop that returns in the exception monad returns the same state when its body is run
in place. -/
theorem forLoopState_of_forLoop {σ : Type} (body : Int → σ → Result σ)
    (bodyS : Int → σ → σ × Option Failure) :
    ∀ (n : Nat), (∀ (k : Nat) (s s' : σ), k < n → body k s = .ok s' → bodyS k s = (s', none)) →
      ∀ s s' : σ, forLoop body n s = .ok s' → forLoopState bodyS n s = (s', none) := by
  intro n
  induction n with
  | zero =>
    intro _ s s' h
    cases h
    rfl
  | succ k ih =>
    intro hb s s' h
    rw [forLoop_succ] at h
    cases hk : forLoop body k s with
    | error e => rw [hk] at h; cases h
    | ok t =>
      rw [hk] at h
      have h1 := ih (fun j a b hj => hb j a b (by omega)) s t hk
      show (match forLoopState bodyS k s with
        | (s', none) => bodyS (k : Int) s'
        | (s', some e) => (s', some e)) = _
      rw [h1]
      exact hb k t s' (by omega) h

/-- The assignment from another matrix of the same size, as the effect on the object: every
cell is written and no exception is thrown. -/
theorem Matrix.operatorAssignState_other (A B : Matrix α) (h : A.sameSize B) :
    A.operatorAssignState (.other B) = (A.filled A.nbRow A.nbColumn B.array, none) := by
  have hv := Matrix.operatorAssign_other A B h.1 h.2
  unfold Matrix.operatorAssign at hv
  have hv2 := throwSpec_eq_ok _ _ _ hv
  change (if A.sameSize B then _ else _) = _ at hv2
  rw [if_pos h] at hv2
  unfold Matrix.operatorAssignState
  show throwSpecState _ (if A.sameSize B then _ else _) = _
  rw [if_pos h]
  have hs := forLoopState_of_forLoop
    (fun i t => forLoop (fun j (t : Matrix α) => do
      let x ← B.getValue i j
      t.setValue i j x) A.nbColumn.toNat t)
    (fun i t => forLoopState (fun j (t : Matrix α) =>
      match B.getValue i j with
      | .error e => (t, some e)
      | .ok x =>
        match t.setValue i j x with
        | .error e => (t, some e)
        | .ok t' => (t', none)) A.nbColumn.toNat t)
    A.nbRow.toNat
    (fun i s s' _ hi => forLoopState_of_forLoop _ _ A.nbColumn.toNat
      (fun j t t' _ hj => by
        cases hx : B.getValue i j with
        | error e => rw [hx] at hj; cases hj
        | ok x =>
          rw [hx] at hj
          change t.setValue i j x = .ok t' at hj
          simp only [hj]) s s' hi)
    A _ hv2
  show throwSpecState _ (forLoopState _ _ _) = _
  rw [hs]
  rfl

/-- The assignment from a matrix of another size, as the effect on the object: the exception
is thrown before any write. -/
theorem Matrix.operatorAssignState_differ (A B : Matrix α) (h : ¬A.sameSize B) :
    A.operatorAssignState (.other B) = (A, some .MatrixException) := by
  unfold Matrix.operatorAssignState
  show throwSpecState _ (if A.sameSize B then _ else _) = _
  rw [if_neg h]
  rfl

/-- The self-assignment, as the effect on the object: nothing is written. -/
theorem Matrix.operatorAssignState_self (A : Matrix α) :
    A.operatorAssignState .self = (A, none) := by
  unfold Matrix.operatorAssignState
  show throwSpecState _ (if A.sameSize A then _ else _) = _
  rw [if_pos ⟨rfl, rfl⟩]
  rfl

end StateLemmas

end reactphysics3d

namespace reactphysics3d

section MoreMatrixClaims

variable {α : Type} [CommRing α]

/-- C12: on the 2 x 2 integer matrix with the rows (1, 2) and (3, 4), whose trace, the sum
of the diagonal entries, is 5, `getTrace` returns 10: the loops add every cell, so the
entries 2 and 3 off the diagonal contribute to the result. -/
theorem Matrix.getTrace_adds_off_diagonal :
    Matrix.getTrace (⟨2, 2, fun i j => 2 * i + j + 1⟩ : Matrix Int) = .ok 10 ∧
      (fun i j : Int => 2 * i + j + 1) 0 0 + (fun i j : Int => 2 * i + j + 1) 1 1 = 5 := by
  constructor <;> decide

/-- C13: for a matrix with at least 2 rows and 2 columns, square or not, and `i`, `j` inside
it, `getCofactor(i, j)` returns a matrix with one row and one column less whose entry
`(u, v)` is the entry of `M` at row `u`, plus one from row `i` on, and column `v`, plus one
from column `j` on: row `i` and column `j` are removed and the others keep their order. -/
theorem Matrix.getCofactor_removes_row_and_column (uninit : Int → Int → α) (M : Matrix α)
    (i j : Int) (h2 : 2 ≤ M.nbRow) (h3 : 2 ≤ M.nbColumn) (hi : 0 ≤ i) (hi2 : i < M.nbRow)
    (hj : 0 ≤ j) (hj2 : j < M.nbColumn) :
    ∃ C, M.getCofactor uninit i j = .ok C ∧ C.nbRow = M.nbRow - 1 ∧
      C.nbColumn = M.nbColumn - 1 ∧
      ∀ u v, 0 ≤ u → u < M.nbRow - 1 → 0 ≤ v → v < M.nbColumn - 1 →
        C.array u v = M.array (u + if i ≤ u then 1 else 0) (v + if j ≤ v then 1 else 0) := by
  refine ⟨_, Matrix.getCofactor_ok uninit M i j hi hi2 hj hj2 h2 h3, rfl, rfl, ?_⟩
  intro u v hu hu2 hv hv2
  unfold Matrix.minor
  rw [Matrix.filled_array, if_pos ⟨hu, hu2, hv, hv2⟩]
  congr 1
  · by_cases h : u < i
    · rw [if_pos h, if_neg (by omega)]; omega
    · rw [if_neg h, if_pos (by omega)]
  · by_cases h : v < j
    · rw [if_pos h, if_neg (by omega)]; omega
    · rw [if_neg h, if_pos (by omega)]

/-- C13, at a concrete matrix: the cofactor matrix of a 3 x 2 integer matrix at row 1 and
column 0 is its 2 x 1 matrix without that row and column. -/
theorem Matrix.getCofactor_removes_row_and_column_witness :
    ∃ C, Matrix.getCofactor (fun _ _ => (7 : Int)) ⟨3, 2, fun i j => 10 * i + j⟩ 1 0 = .ok C ∧
      C.nbRow = 3 - 1 ∧ C.nbColumn = 2 - 1 ∧
      ∀ u v, 0 ≤ u → u < (3 : Int) - 1 → 0 ≤ v → v < (2 : Int) - 1 →
        C.array u v = (fun i j : Int => 10 * i + j) (u + if 1 ≤ u then 1 else 0)
          (v + if 0 ≤ v then 1 else 0) :=
  Matrix.getCofactor_removes_row_and_column (fun _ _ => (7 : Int))
    ⟨3, 2, fun i j => 10 * i + j⟩ 1 0 (by decide) (by decide) (by decide) (by decide)
    (by decide) (by decide)

/-- C14, as stated, fails: on the 1 x 1 integer matrix with the entry 5 the indices
`i = j = 0` are inside the matrix, and `getCofactor(0, 0)` throws `std::invalid_argument`
all the same, so the error does not imply an index outside the matrix and no cofactor
matrix is returned. -/
theorem Matrix.getCofactor_in_range_fails :
    (0 ≤ (0 : Int) ∧ (0 : Int) < (⟨1, 1, fun _ _ => 5⟩ : Matrix Int).nbRow ∧
        0 ≤ (0 : Int) ∧ (0 : Int) < (⟨1, 1, fun _ _ => 5⟩ : Matrix Int).nbColumn) ∧
      Matrix.getCofactor (fun _ _ => (7 : Int)) ⟨1, 1, fun _ _ => 5⟩ 0 0 =
        .error .invalid_argument ∧
      ¬(Matrix.getCofactor (fun _ _ => (7 : Int)) ⟨1, 1, fun _ _ => 5⟩ 0 0 =
          .error .invalid_argument ↔
        ¬(0 ≤ (0 : Int) ∧ (0 : Int) < (⟨1, 1, fun _ _ => 5⟩ : Matrix Int).nbRow ∧
          0 ≤ (0 : Int) ∧ (0 : Int) < (⟨1, 1, fun _ _ => 5⟩ : Matrix Int).nbColumn)) := by
  have h := Matrix.getCofactor_thin (fun _ _ => (7 : Int)) ⟨1, 1, fun _ _ => 5⟩ 0 0
    (Or.inl (le_refl 1))
  refine ⟨by decide, h, fun hiff => ?_⟩
  exact (hiff.mp h) (by decide)

/-- C14, amended: for every matrix and all integers `i`, `j`, `getCofactor(i, j)` throws
`std::invalid_argument` exactly when `i` or `j` is outside the matrix or the matrix has a
single row or a single column, where the cofactor matrix would have no row or no column and
its constructor throws; with `i` and `j` inside a matrix of at least 2 rows and 2 columns it
returns the cofactor matrix, the matrix without row `i` and column `j`. -/
theorem Matrix.getCofactor_fails_iff (uninit : Int → Int → α) (M : Matrix α) (i j : Int) :
    (M.getCofactor uninit i j = .error .invalid_argument ↔
        (¬(0 ≤ i ∧ i < M.nbRow ∧ 0 ≤ j ∧ j < M.nbColumn) ∨ M.nbRow ≤ 1 ∨ M.nbColumn ≤ 1)) ∧
      ((0 ≤ i ∧ i < M.nbRow ∧ 0 ≤ j ∧ j < M.nbColumn) ∧ 2 ≤ M.nbRow ∧ 2 ≤ M.nbColumn →
        ∃ C, M.getCofactor uninit i j = .ok C ∧ C.nbRow = M.nbRow - 1 ∧
          C.nbColumn = M.nbColumn - 1 ∧
          ∀ u v, 0 ≤ u → u < M.nbRow - 1 → 0 ≤ v → v < M.nbColumn - 1 →
            C.array u v = M.array (if u < i then u else u + 1) (if v < j then v else v + 1)) := by
  by_cases hthin : M.nbRow ≤ 1 ∨ M.nbColumn ≤ 1
  · refine ⟨⟨fun _ => Or.inr hthin, fun _ => Matrix.getCofactor_thin uninit M i j hthin⟩,
      fun h => ?_⟩
    omega
  · by_cases hr : 0 ≤ i ∧ i < M.nbRow ∧ 0 ≤ j ∧ j < M.nbColumn
    · have hok := Matrix.getCofactor_ok uninit M i j hr.1 hr.2.1 hr.2.2.1 hr.2.2.2 (by omega)
        (by omega)
      refine ⟨⟨fun he => ?_, fun h => ?_⟩, fun _ => ⟨_, hok, rfl, rfl, ?_⟩⟩
      · rw [hok] at he; cases he
      · rcases h with h | h
        · exact absurd hr h
        · exact absurd h hthin
      · intro u v hu hu2 hv hv2
        unfold Matrix.minor
        rw [Matrix.filled_array, if_pos ⟨hu, hu2, hv, hv2⟩]
    · refine ⟨⟨fun _ => Or.inl hr, fun _ => ?_⟩, fun h => absurd h.1 hr⟩
      rw [Matrix.getCofactor_eq, if_neg hr]
      rfl

/-- C14 amended, at concrete matrices: on a 2 x 2 matrix `getCofactor(1, 0)` returns the
1 x 1 cofactor matrix. -/
theorem Matrix.getCofactor_fails_iff_witness :
    ∃ C, Matrix.getCofactor (fun _ _ => (7 : Int)) ⟨2, 2, fun i j => 10 * i + j⟩ 1 0 = .ok C ∧
      C.nbRow = 2 - 1 ∧ C.nbColumn = 2 - 1 ∧
      ∀ u v, 0 ≤ u → u < (2 : Int) - 1 → 0 ≤ v → v < (2 : Int) - 1 →
        C.array u v = (fun i j : Int => 10 * i + j) (if u < 1 then u else u + 1)
          (if v < 0 then v else v + 1) :=
  (Matrix.getCofactor_fails_iff (fun _ _ => (7 : Int)) ⟨2, 2, fun i j => 10 * i + j⟩ 1 0).2
    (by decide)

/-- C15: for every integer `n`, `identityMatrix(n)` throws `std::invalid_argument` exactly
when `n ≤ 0`; otherwise it returns the `n x n` matrix whose entry `(i, j)` is 1 for `i = j`
and 0 for `i ≠ j`. -/
theorem Matrix.identityMatrix_spec (uninit : Int → Int → α) (n : Int) :
    (Matrix.identityMatrix uninit n = .error .invalid_argument ↔ n ≤ 0) ∧
      (0 < n →
        ∃ I, Matrix.identityMatrix uninit n = .ok I ∧ I.nbRow = n ∧ I.nbColumn = n ∧
          ∀ i j, 0 ≤ i → i < n → 0 ≤ j → j < n → I.array i j = if i = j then 1 else 0) := by
  by_cases h : n ≤ 0
  · exact ⟨⟨fun _ => h, fun _ => Matrix.identityMatrix_error uninit n h⟩, fun hn => by omega⟩
  · have hok := Matrix.identityMatrix_ok uninit n (by omega)
    refine ⟨⟨fun he => ?_, fun hn => absurd hn h⟩, fun _ => ⟨_, hok, rfl, rfl, ?_⟩⟩
    · rw [hok] at he; cases he
    · intro i j hi hi2 hj hj2
      rw [Matrix.filled_array, if_pos ⟨hi, hi2, hj, hj2⟩]

/-- C15, at a concrete dimension: `identityMatrix(3)` is the 3 x 3 identity. -/
theorem Matrix.identityMatrix_spec_witness :
    ∃ I, Matrix.identityMatrix (fun _ _ => (7 : Int)) 3 = .ok I ∧ I.nbRow = 3 ∧
      I.nbColumn = 3 ∧
      ∀ i j, 0 ≤ i → i < 3 → 0 ≤ j → j < 3 → I.array i j = if i = j then 1 else 0 :=
  (Matrix.identityMatrix_spec (fun _ _ => (7 : Int)) 3).2 (by decide)

/-- C16: for a matrix `M` with `m` rows and `n` columns (positive, as for every constructed
matrix) `getTranspose` returns a matrix `T` with `n` rows and `m` columns and
`T(j, i) = M(i, j)` for all `i` below `m` and `j` below `n`.  The function reads `M` and
writes the new matrix only: `M` is an argument of the embedded function and not among its
results. -/
theorem Matrix.getTranspose_spec (uninit : Int → Int → α) (M : Matrix α) (hm : 0 < M.nbRow)
    (hn : 0 < M.nbColumn) :
    ∃ T, M.getTranspose uninit = .ok T ∧ T.nbRow = M.nbColumn ∧ T.nbColumn = M.nbRow ∧
      ∀ i j, 0 ≤ i → i < M.nbRow → 0 ≤ j → j < M.nbColumn → T.array j i = M.array i j := by
  refine ⟨_, Matrix.getTranspose_ok uninit M hm hn, rfl, rfl, ?_⟩
  intro i j hi hi2 hj hj2
  rw [Matrix.filled_array, if_pos ⟨hj, hj2, hi, hi2⟩]

/-- C16, at a concrete matrix: the transpose of a 2 x 3 integer matrix is 3 x 2. -/
theorem Matrix.getTranspose_spec_witness :
    ∃ T, Matrix.getTranspose (fun _ _ => (7 : Int)) ⟨2, 3, fun i j => 10 * i + j⟩ = .ok T ∧
      T.nbRow = 3 ∧ T.nbColumn = 2 ∧
      ∀ i j, 0 ≤ i → i < 2 → 0 ≤ j → j < 3 →
        T.array j i = (fun i j : Int => 10 * i + j) i j :=
  Matrix.getTranspose_spec (fun _ _ => (7 : Int)) ⟨2, 3, fun i j => 10 * i + j⟩ (by decide)
    (by decide)

omit [CommRing α] in
/-- C19: the assignment `A = B` is atomic.  When the sizes of `A` and `B` differ the call
throws `MatrixException` and the object `A` is as before the call, its cells and its
dimensions; when they agree the call returns, `A` keeps its dimensions and `A(i,j) = B(i,j)`
for all `i`, `j` inside the matrix; the self-assignment `A = A` returns with `A` as
before.  `B` is read only: it is an argument of the embedded function and not among its
results. -/
theorem Matrix.operatorAssign_atomic (A B : Matrix α) :
    (¬A.sameSize B → A.operatorAssignState (.other B) = (A, some .MatrixException)) ∧
      (A.sameSize B →
        ∃ A', A.operatorAssignState (.other B) = (A', none) ∧
          A.operatorAssign (.other B) = .ok A' ∧ A'.nbRow = A.nbRow ∧
          A'.nbColumn = A.nbColumn ∧
          ∀ i j, 0 ≤ i → i < A.nbRow → 0 ≤ j → j < A.nbColumn → A'.array i j = B.array i j) ∧
      A.operatorAssignState .self = (A, none) := by
  refine ⟨Matrix.operatorAssignState_differ A B, fun h => ?_, Matrix.operatorAssignState_self A⟩
  refine ⟨_, Matrix.operatorAssignState_other A B h, Matrix.operatorAssign_other A B h.1 h.2,
    rfl, rfl, ?_⟩
  intro i j hi hi2 hj hj2
  rw [Matrix.filled_array, if_pos ⟨hi, hi2, hj, hj2⟩]

/-- C19, at concrete matrices: assigning a 2 x 3 matrix to a 2 x 2 matrix throws and leaves
the 2 x 2 matrix as it was; assigning a 2 x 2 matrix copies its cells. -/
theorem Matrix.operatorAssign_atomic_witness :
    Matrix.operatorAssignState (⟨2, 2, fun i j => i + j⟩ : Matrix Int)
        (.other ⟨2, 3, fun _ _ => 1⟩) = (⟨2, 2, fun i j => i + j⟩, some .MatrixException) ∧
      ∃ A', Matrix.operatorAssignState (⟨2, 2, fun i j => i + j⟩ : Matrix Int)
          (.other ⟨2, 2, fun i j => 10 * i + j⟩) = (A', none) ∧
        Matrix.operatorAssign (⟨2, 2, fun i j => i + j⟩ : Matrix Int)
          (.other ⟨2, 2, fun i j => 10 * i + j⟩) = .ok A' ∧ A'.nbRow = 2 ∧ A'.nbColumn = 2 ∧
        ∀ i j, 0 ≤ i → i < 2 → 0 ≤ j → j < 2 →
          A'.array i j = (fun i j : Int => 10 * i + j) i j :=
  ⟨(Matrix.operatorAssign_atomic (⟨2, 2, fun i j => i + j⟩ : Matrix Int)
      ⟨2, 3, fun _ _ => 1⟩).1 (by decide),
    (Matrix.operatorAssign_atomic (⟨2, 2, fun i j => i + j⟩ : Matrix Int)
      ⟨2, 2, fun i j => 10 * i + j⟩).2.1 (by decide)⟩

end MoreMatrixClaims

end reactphysics3d

namespace reactphysics3d

/-! ## The registry of constraints, the gravity flag and the "moved" flags: the claims -/

section WorldLemmas

/-- Visiting a container from its beginning to its end yields its elements in their
order. -/
theorem traverse_all (v : List Ptr) : traverse v 0 v.length = v := by
  unfold traverse
  simp only [Nat.sub_zero, Nat.zero_add]
  induction v using List.reverseRecOn with
  | nil => rfl
  | append_singleton l a ih =>
    rw [List.length_append, List.length_singleton, List.range_succ, List.filterMap_append]
    have e1 : List.filterMap (fun k => (l ++ [a])[k]?) (List.range l.length) =
        List.filterMap (fun k => l[k]?) (List.range l.length) := by
      apply List.filterMap_congr
      intro k hk
      rw [List.mem_range] at hk
      exact List.getElem?_append_left hk
    rw [e1, ih]
    simp

/-- The loop of `resetBodiesMovementVariable` over a list of addresses: the bodies at these
addresses have the flag cleared and nothing else written, the other bodies are as before. -/
theorem BodyStore.foldl_setHasMoved (l : List Ptr) :
    ∀ (bodies : BodyStore) (p : Ptr),
      (l.foldl (fun bodies it => bodies.setHasMoved it false) bodies) p =
        if p ∈ l then { bodies p with hasMoved := false } else bodies p := by
  induction l with
  | nil => intro bodies p; simp
  | cons it l ih =>
    intro bodies p
    rw [List.foldl_cons, ih]
    by_cases hp : p = it
    · subst hp
      simp [BodyStore.setHasMoved, RigidBody.setHasMoved]
    · by_cases hl : p ∈ l
      · simp [BodyStore.setHasMoved, hp, hl]
      · simp [BodyStore.setHasMoved, hp, hl]

end WorldLemmas

/-- C11: for every world and every constraint `c` that is not null, with and without
assertions, `addConstraint(c)` returns and the registry is the former registry followed by
`c`, the other members of the world unchanged; visiting the registry from
`getConstraintsBeginIterator()` to `getConstraintsEndIterator()` yields the former
constraints in their order and then `c`, the order of the additions.  With assertions
`addConstraint` of the null pointer is rejected by `assert(constraint != 0)`. -/
theorem DynamicsWorld.addConstraint_appends (NDEBUG : Bool) (w : DynamicsWorld) (c : Ptr)
    (h0 : c ≠ 0) :
    ∃ w', w.addConstraint NDEBUG c = .done w' ∧
      w'.constraints = w.constraints ++ [c] ∧
      w' = { w with constraints := w.constraints ++ [c] } ∧
      traverse w'.constraints w'.getConstraintsBeginIterator w'.getConstraintsEndIterator =
        w.constraints ++ [c] ∧
      w.addConstraint false 0 = .assertionFailed := by
  refine ⟨{ w with constraints := w.constraints ++ [c] }, ?_, rfl, rfl, ?_, ?_⟩
  · unfold DynamicsWorld.addConstraint
    rw [if_neg (by simp [h0])]
  · exact traverse_all _
  · unfold DynamicsWorld.addConstraint
    rw [if_pos (by simp)]

/-- C11, at a concrete world: adding 5 to the registry `[4, 7]` gives `[4, 7, 5]`. -/
theorem DynamicsWorld.addConstraint_appends_witness :
    ∃ w', DynamicsWorld.addConstraint false
        { isDeactivationActive := true, rigidBodies := [1, 2], constraints := [4, 7],
          gravity := ⟨0, -10, 0⟩, isGravityOn := true } 5 = .done w' ∧
      w'.constraints = [4, 7] ++ [5] ∧
      w' = { isDeactivationActive := true, rigidBodies := [1, 2], constraints := [4, 7] ++ [5],
             gravity := ⟨0, -10, 0⟩, isGravityOn := true } ∧
      traverse w'.constraints w'.getConstraintsBeginIterator w'.getConstraintsEndIterator =
        [4, 7] ++ [5] ∧
      DynamicsWorld.addConstraint false
        { isDeactivationActive := true, rigidBodies := [1, 2], constraints := [4, 7],
          gravity := ⟨0, -10, 0⟩, isGravityOn := true } 0 = .assertionFailed :=
  DynamicsWorld.addConstraint_appends false
    { isDeactivationActive := true, rigidBodies := [1, 2], constraints := [4, 7],
      gravity := ⟨0, -10, 0⟩, isGravityOn := true } 5 (by decide)

/-- C17: for every world and every boolean `b`, after `setIsGratityOn(b)` the getter
`getIsGravityOn()` returns `b`, and `getGravity()`, the registry of constraints, the
registry of rigid bodies and the deactivation flag are as before the call. -/
theorem DynamicsWorld.setIsGratityOn_frame (w : DynamicsWorld) (b : Bool) :
    (w.setIsGratityOn b).getIsGravityOn = b ∧
      (w.setIsGratityOn b).getGravity = w.getGravity ∧
      (w.setIsGratityOn b).constraints = w.constraints ∧
      (w.setIsGratityOn b).rigidBodies = w.rigidBodies ∧
      (w.setIsGratityOn b).isDeactivationActive = w.isDeactivationActive :=
  ⟨rfl, rfl, rfl, rfl, rfl⟩

/-- C18: for every world and every content of the memory of bodies, after
`resetBodiesMovementVariable` every body of the registry has its "moved" flag false and its
other members as before, every other body is as before, and the world, with its registry of
bodies, its settings and its constraints, is as before. -/
theorem DynamicsWorld.resetBodiesMovementVariable_frame (bodies : BodyStore)
    (w : DynamicsWorld) :
    (∀ p, p ∈ w.rigidBodies →
        ((w.resetBodiesMovementVariable bodies).1 p).hasMoved = false ∧
        (w.resetBodiesMovementVariable bodies).1 p = { bodies p with hasMoved := false }) ∧
      (∀ p, p ∉ w.rigidBodies → (w.resetBodiesMovementVariable bodies).1 p = bodies p) ∧
      (w.resetBodiesMovementVariable bodies).2 = w := by
  have h : ∀ p, (w.resetBodiesMovementVariable bodies).1 p =
      if p ∈ w.rigidBodies then { bodies p with hasMoved := false } else bodies p := by
    intro p
    unfold DynamicsWorld.resetBodiesMovementVariable
    simp only [DynamicsWorld.getRigidBodiesBeginIterator,
      DynamicsWorld.getRigidBodiesEndIterator]
    rw [traverse_all]
    exact BodyStore.foldl_setHasMoved _ _ _
  refine ⟨fun p hp => ?_, fun p hp => ?_, rfl⟩
  · rw [h p, if_pos hp]
    exact ⟨rfl, rfl⟩
  · rw [h p, if_neg hp]

/-- C18, at a concrete world: with the bodies 1 and 2 registered and every body in memory
marked as moved, the flag of body 2 is cleared and body 3, not registered, keeps it. -/
theorem DynamicsWorld.resetBodiesMovementVariable_frame_witness :
    (((DynamicsWorld.resetBodiesMovementVariable (fun _ => ⟨⟨0, 1, 0⟩, ⟨1, 0, 0⟩, ⟨0, 0, 0⟩, 3,
          true, false⟩)
        { isDeactivationActive := true, rigidBodies := [1, 2], constraints := [4],
          gravity := ⟨0, -10, 0⟩, isGravityOn := true }).1 2).hasMoved = false ∧
      (DynamicsWorld.resetBodiesMovementVariable (fun _ => ⟨⟨0, 1, 0⟩, ⟨1, 0, 0⟩, ⟨0, 0, 0⟩, 3,
          true, false⟩)
        { isDeactivationActive := true, rigidBodies := [1, 2], constraints := [4],
          gravity := ⟨0, -10, 0⟩, isGravityOn := true }).1 2 =
        ⟨⟨0, 1, 0⟩, ⟨1, 0, 0⟩, ⟨0, 0, 0⟩, 3, false, false⟩) ∧
      (DynamicsWorld.resetBodiesMovementVariable (fun _ => ⟨⟨0, 1, 0⟩, ⟨1, 0, 0⟩, ⟨0, 0, 0⟩, 3,
          true, false⟩)
        { isDeactivationActive := true, rigidBodies := [1, 2], constraints := [4],
          gravity := ⟨0, -10, 0⟩, isGravityOn := true }).1 3 =
        ⟨⟨0, 1, 0⟩, ⟨1, 0, 0⟩, ⟨0, 0, 0⟩, 3, true, false⟩ :=
  have h := DynamicsWorld.resetBodiesMovementVariable_frame
    (fun _ => ⟨⟨0, 1, 0⟩, ⟨1, 0, 0⟩, ⟨0, 0, 0⟩, 3, true, false⟩)
    { isDeactivationActive := true, rigidBodies := [1, 2], constraints := [4],
      gravity := ⟨0, -10, 0⟩, isGravityOn := true }
  ⟨h.1 2 (by decide), h.2.1 3 (by decide)⟩

end reactphysics3d

namespace reactphysics3d

/-! ## The arithmetic of `double` at powers of two -/

section DoubleLemmas

/-- An integer is its own nearest integer. -/
theorem roundHalfEven_intCast (z : ℤ) : roundHalfEven (z : ℚ) = z := by
  unfold roundHalfEven
  rw [Int.floor_intCast, sub_self, if_pos (by norm_num)]

/-- A power of two below `2 ^ 1024` is a value of `double`, and rounding one from
`2 ^ 1024` on overflows to the positive infinity. -/
theorem Double.round_two_pow (k : ℕ) :
    Double.round ((2 : ℚ) ^ k) = if 1024 ≤ k then .inf false else .finite (2 ^ k) := by
  have hpos : (0 : ℚ) < 2 ^ k := by positivity
  have hlog : Int.log 2 ((2 : ℚ) ^ k) = k := by
    have h := Int.log_zpow (R := ℚ) (b := 2) (by norm_num) (k : ℤ)
    simpa using h
  have hq : (2 : ℚ) ^ k / 2 ^ ((k : ℤ) - 52) = (((2 : ℤ) ^ 52 : ℤ) : ℚ) := by
    rw [zpow_sub₀ (by norm_num), zpow_natCast]
    field_simp
    norm_num
  have hr : ((((2 : ℤ) ^ 52 : ℤ) : ℚ)) * 2 ^ ((k : ℤ) - 52) = 2 ^ k := by
    rw [zpow_sub₀ (by norm_num), zpow_natCast]
    field_simp
    norm_num
    ring
  unfold Double.round
  rw [if_neg (ne_of_gt hpos)]
  simp only [abs_of_pos hpos, hlog]
  rw [max_eq_left (by omega), hq, roundHalfEven_intCast, hr, abs_of_pos hpos]
  by_cases hk : 1024 ≤ k
  · rw [if_pos hk, if_pos (pow_le_pow_right₀ (by norm_num) hk)]
    simp [not_lt.mpr (le_of_lt hpos)]
  · rw [if_neg hk, if_neg (by
      rw [not_le]
      exact pow_lt_pow_right₀ (by norm_num) (by omega))]

/-- In `double` the product of `2 ^ 600` with itself overflows. -/
theorem Double.big_mul_big :
    (Double.finite (2 ^ 600) * Double.finite (2 ^ 600) : Double) = .inf false := by
  show Double.round ((2 : ℚ) ^ 600 * 2 ^ 600) = _
  rw [← pow_add, Double.round_two_pow, if_pos (by norm_num)]

/-- In `double` one times one is one. -/
theorem Double.one_mul_one : ((1 : Double) * 1 : Double) = 1 := by
  show Double.round ((1 : ℚ) * 1) = Double.finite 1
  have h := Double.round_two_pow 0
  rw [if_neg (by norm_num)] at h
  simpa using h

/-- The determinant `getDeterminant` computes for the matrix with every entry `2 ^ 600`:
both products overflow, and the difference of two infinities is NaN. -/
theorem Matrix.getDeterminant_allBig (uninit : Int → Int → Double) :
    Matrix.allBig.getDeterminant uninit = .ok .nan := by
  rw [Matrix.getDeterminant_two_by_two uninit Matrix.allBig rfl rfl]
  show Except.ok ((Double.finite (2 ^ 600) * Double.finite (2 ^ 600) : Double) -
    (Double.finite (2 ^ 600) * Double.finite (2 ^ 600) : Double)) = _
  rw [Double.big_mul_big]
  rfl

/-- The determinant `getDeterminant` computes for the matrix with every entry 1 is zero. -/
theorem Matrix.getDeterminant_allOnes (uninit : Int → Int → Double) :
    Matrix.allOnes.getDeterminant uninit = .ok 0 := by
  rw [Matrix.getDeterminant_two_by_two uninit Matrix.allOnes rfl rfl]
  show Except.ok (((1 : Double) * 1 : Double) - ((1 : Double) * 1 : Double)) = _
  rw [Double.one_mul_one]
  show Except.ok (Double.round ((1 : ℚ) + -1)) = _
  rw [add_neg_cancel]
  rfl

end DoubleLemmas

end reactphysics3d

namespace reactphysics3d

/-! ## The inverse of a singular matrix: the claim -/

section SingularClaims

/-- A product with NaN is NaN. -/
theorem Double.mul_nan (x : Double) : x * Double.nan = Double.nan := by
  cases x <;> rfl

/-- C2, as stated, fails in the arithmetic of `double`.  The 2 x 2 matrix with every entry
`2 ^ 600`, a value of `double`, is square and the determinant of its entries is zero.  In
`getDeterminant` both products overflow to infinity and their difference is NaN, which
passes the test `determinant != 0.0`: `getInverse` throws no `MatrixException` and returns a
2 x 2 matrix, with every entry NaN. -/
theorem Matrix.getInverse_accepts_singular :
    Double.round ((2 : ℚ) ^ 600) = .finite (2 ^ 600) ∧
      Matrix.allBig.nbRow = Matrix.allBig.nbColumn ∧
      (∀ i j, Matrix.allBig.array i j = .finite (Matrix.allBigExact.array i j)) ∧
      Matrix.det (Matrix.allBigExact.toSquare 2) = 0 ∧
      Matrix.allBig.getDeterminant (fun _ _ => 0) = .ok .nan ∧
      Matrix.allBig.getInverse (fun _ _ => 0) ≠ .error .MatrixException ∧
      ∃ N, Matrix.allBig.getInverse (fun _ _ => 0) = .ok N ∧ N.nbRow = 2 ∧ N.nbColumn = 2 ∧
        ∀ i j, 0 ≤ i → i < 2 → 0 ≤ j → j < 2 → N.array i j = .nan := by
  have hdet := Matrix.getDeterminant_allBig (fun _ _ => 0)
  have hinv := Matrix.getInverse_ok_of (fun _ _ => (0 : Double)) Matrix.allBig 0 rfl rfl .nan
    (fun i j => (Matrix.allBig.minor (fun _ _ => 0) i j).array 0 0) hdet (by decide)
    (fun i j _ _ => Matrix.getDeterminant_one_by_one _ _ rfl rfl)
  refine ⟨?_, rfl, fun _ _ => rfl, ?_, hdet, ?_, _, hinv, rfl, rfl, ?_⟩
  · rw [Double.round_two_pow, if_neg (by norm_num)]
  · rw [Matrix.det_fin_two]
    simp [Matrix.toSquare, Matrix.allBigExact]
  · rw [hinv]
    intro h
    cases h
  · intro i j hi hi2 hj hj2
    rw [Matrix.filled_array, if_pos ⟨hi, hi2, hj, hj2⟩]
    have h1 : ((1 : Double) / Double.nan) = Double.nan := rfl
    rw [h1, Double.mul_nan]

/-- C2, amended: in every arithmetic, that of `double` included, `getInverse` throws
`MatrixException`, and returns no matrix, whenever the matrix is not square and whenever
`getDeterminant` returns for it a value equal to zero. -/
theorem Matrix.getInverse_rejects_computed_zero {α : Type} [Zero α] [One α] [Add α] [Sub α]
    [Mul α] [Neg α] [Div α] [DecidableEq α] (uninit : Int → Int → α) (M : Matrix α)
    (h : M.nbRow ≠ M.nbColumn ∨ M.getDeterminant uninit = .ok 0) :
    M.getInverse uninit = .error .MatrixException ∧ ∀ N, M.getInverse uninit ≠ .ok N := by
  have key : M.getInverse uninit = .error .MatrixException := by
    rcases h with h | h
    · exact Matrix.getInverse_not_square uninit M h
    · exact Matrix.getInverse_zero_determinant uninit M h
  refine ⟨key, fun N hN => ?_⟩
  rw [key] at hN
  cases hN

/-- C2 amended, at concrete matrices of `double`: a 2 x 3 matrix is rejected, and so is the
2 x 2 matrix with every entry 1, for which `getDeterminant` returns zero. -/
theorem Matrix.getInverse_rejects_computed_zero_witness :
    (Matrix.getInverse (fun _ _ => (0 : Double)) ⟨2, 3, fun _ _ => 1⟩ =
        .error .MatrixException ∧
      ∀ N, Matrix.getInverse (fun _ _ => (0 : Double)) ⟨2, 3, fun _ _ => 1⟩ ≠ .ok N) ∧
    (Matrix.allOnes.getInverse (fun _ _ => 0) = .error .MatrixException ∧
      ∀ N, Matrix.allOnes.getInverse (fun _ _ => 0) ≠ .ok N) :=
  ⟨Matrix.getInverse_rejects_computed_zero (fun _ _ => (0 : Double)) ⟨2, 3, fun _ _ => 1⟩
      (Or.inl (by decide)),
    Matrix.getInverse_rejects_computed_zero (fun _ _ => (0 : Double)) Matrix.allOnes
      (Or.inr (Matrix.getDeterminant_allOnes _))⟩

end SingularClaims

end reactphysics3d
